import Mathlib

/-!
# Verification of the count_bot log-replay inventory engine

A shallow embedding of `count_bot.py` (repository Fred-Hsu/count_bot): the
log-replay state-reconstruction engine, the write path (`_count`, `_remove`),
the transfer protocol (`_collect_from`, `drop`), the transaction-log entry
decoder, and the checkpoint (sync point) codec.

Python dataframes are modelled as lists of rows; Python dicts as association
lists with insert-order append semantics; `str()`/`int()` as an explicit
decimal rendering/parsing pair; raised exceptions as `Option`/explicit error
results.  Effects on the external log and the in-memory tables are recorded
as an explicit event list so that ordering properties are statable.
-/

namespace CountBot

/-! ## Generic helpers: association lists with Python dict semantics -/

/-- First-match lookup in an association list (Python `dict` lookup, where the
list is maintained with unique keys). -/
def alookup {α β : Type} [DecidableEq α] (k : α) : List (α × β) → Option β
  | [] => none
  | (k', v) :: rest => if k' = k then some v else alookup k rest

/-- Python `d[k] = v`: replace in place if the key exists, else append
(Python dicts preserve insertion order). -/
def dictSet {α β : Type} [DecidableEq α] (d : List (α × β)) (k : α) (v : β) :
    List (α × β) :=
  match d with
  | [] => [(k, v)]
  | (k', v') :: rest => if k' = k then (k, v) :: rest else (k', v') :: dictSet rest k v

/-- Python `d.update(kvs)`. -/
def dictUpdate {α β : Type} [DecidableEq α] (d : List (α × β)) (kvs : List (α × β)) :
    List (α × β) :=
  kvs.foldl (fun d kv => dictSet d kv.1 kv.2) d

/-! ## Decimal rendering and parsing

Models Python `str(n)` / `int(s)` (and the way pandas serializes and parses
integer columns) as an explicit, inverse pair of functions. -/

/-- Little-endian decimal digit worker, structurally recursive on a fuel
argument so that concrete values reduce in the kernel. -/
def natToDigits : Nat → Nat → List Char
  | 0, _ => []
  | f + 1, n => if n = 0 then [] else Nat.digitChar (n % 10) :: natToDigits f (n / 10)

/-- Little-endian decimal digits of `n` (empty for `0`). -/
def natDigitsLE (n : Nat) : List Char := natToDigits n n

/-- Decimal rendering of a natural number: models Python `str(n)` for `n ≥ 0`. -/
def natRepr (n : Nat) : String :=
  if n = 0 then "0" else String.mk (natDigitsLE n).reverse

/-- Numeric value of a decimal digit character. -/
def digitVal (c : Char) : Nat := c.toNat - '0'.toNat

/-- Decimal parsing of a natural number: models Python `int(s)` for digit
strings. -/
def natParse? (s : String) : Option Nat :=
  if s.data ≠ [] ∧ s.data.all (·.isDigit) then
    some (s.data.foldl (fun n c => n * 10 + digitVal c) 0)
  else none

/-- Decimal rendering of an integer: models Python `str(i)`. -/
def intRepr (i : Int) : String :=
  if i < 0 then "-" ++ natRepr i.natAbs else natRepr i.natAbs

/-- Decimal parsing of an integer: models Python `int(s)`; `none` models the
`ValueError` that `int` raises on malformed input. -/
def intParse? (s : String) : Option Int :=
  if s.data.head? = some '-' then
    (natParse? (String.mk s.data.tail)).map (fun n => -(Int.ofNat n))
  else (natParse? s).map (fun n => Int.ofNat n)

/-! ## Python string operations

Explicit models of the `str` methods used by the transaction-log codec:
`rsplit`/`split` with whitespace separator and a `maxsplit` bound,
`split(sep)`, `strip`, `startswith`, `endswith`, and negative slicing. -/

/-- Does `p` occur as the initial segment of `s`? (Python `startswith`.) -/
def listLeads : List Char → List Char → Bool
  | [], _ => true
  | _ :: _, [] => false
  | a :: as, b :: bs => a = b && listLeads as bs

def pyStartsWith (p s : String) : Bool := listLeads p.data s.data

def pyEndsWith (p s : String) : Bool := listLeads p.data.reverse s.data.reverse

/-- Python slicing `s[:-n]`. -/
def pyDropRight (s : String) (n : Nat) : String :=
  String.mk (s.data.take (s.data.length - n))

/-- `rsplit` worker: the first argument bounds the number of splits still
allowed (`maxsplit`), the second is the reversed remaining input. -/
def rsplitAux : Nat → List Char → List (List Char)
  | 0, cs =>
    let cs' := cs.dropWhile (·.isWhitespace)
    if cs' = [] then [] else [cs'.reverse]
  | m + 1, cs =>
    let cs' := cs.dropWhile (·.isWhitespace)
    if cs' = [] then []
    else
      rsplitAux m (cs'.dropWhile (fun c => ¬ c.isWhitespace)) ++
        [(cs'.takeWhile (fun c => ¬ c.isWhitespace)).reverse]

/-- Python `s.rsplit(maxsplit=k)` (whitespace separator). -/
def pyRsplitWs (s : String) (k : Nat) : List String :=
  (rsplitAux k s.data.reverse).map String.mk

/-- `split` worker, from the left. -/
def lsplitAux : Nat → List Char → List (List Char)
  | 0, cs =>
    let cs' := cs.dropWhile (·.isWhitespace)
    if cs' = [] then [] else [cs']
  | m + 1, cs =>
    let cs' := cs.dropWhile (·.isWhitespace)
    if cs' = [] then []
    else
      cs'.takeWhile (fun c => ¬ c.isWhitespace) ::
        lsplitAux m (cs'.dropWhile (fun c => ¬ c.isWhitespace))

/-- Python `s.split(maxsplit=k)` (whitespace separator). -/
def pySplitWsN (s : String) (k : Nat) : List String :=
  (lsplitAux k s.data).map String.mk

/-- Word-splitting worker: `acc` is the reversed current word. -/
def wordsAux : List Char → List Char → List (List Char)
  | [], acc => if acc = [] then [] else [acc.reverse]
  | c :: rest, acc =>
    if c.isWhitespace then
      if acc = [] then wordsAux rest [] else acc.reverse :: wordsAux rest []
    else wordsAux rest (c :: acc)

/-- Python `s.split()` with no bound: the whitespace-separated words. -/
def pySplitWs (s : String) : List String :=
  (wordsAux s.data []).map String.mk

/-- Python `s.split(sep)` for a one-character separator `sep`. -/
def splitOnChar (sep : Char) : List Char → List (List Char)
  | [] => [[]]
  | c :: rest =>
    if c = sep then [] :: splitOnChar sep rest
    else
      match splitOnChar sep rest with
      | r :: rs => (c :: r) :: rs
      | [] => [[c]]

def pySplitChar (sep : Char) (s : String) : List String :=
  (splitOnChar sep s.data).map String.mk

/-- Python `s.strip(chars)`. -/
def pyStrip (chars : String) (s : String) : String :=
  String.mk (((s.data.dropWhile (chars.data.contains ·)).reverse.dropWhile
    (chars.data.contains ·)).reverse)

/-- Python `s.strip()`. -/
def pyStripWs (s : String) : String :=
  String.mk (((s.data.dropWhile (·.isWhitespace)).reverse.dropWhile
    (·.isWhitespace)).reverse)

/-! ## Static catalog configuration (count_bot.py lines 75-146) -/

def ITEM_CHOICES : List String := ["verkstan", "prusa", "visor", "earsaver"]

def VARIANT_CHOICES : List (String × List String) :=
  [("prusa", ["PETG", "PLA"]),
   ("verkstan", ["PETG", "PLA"]),
   ("visor", ["prusa", "verkstan"]),
   ("earsaver", [" "])]

def ITEMS_WITH_NO_VARIANTS : List String := ["earsaver"]

def PRODUCT_CSV_FILE_NAME : String := "product_inventory.csv"

def CODE_VERSION : String := "0.5"

/-- Python `s.lower()` as a character-list map. -/
def pyLower (s : String) : String := String.mk (s.data.map Char.toLower)

/-- The alias entries contributed by one catalog word:
`[(word[:i].lower(), word) for i in range(3, len(word))]` (lines 141, 144). -/
def wordAliases (word : String) : List (String × String) :=
  ((List.range word.data.length).drop 3).map
    (fun i => (pyLower (String.mk (word.data.take i)), word))

/-- `_setup_aliases` (lines 138-146): builds the alias dictionary and the full
(item, variant) catalog by iterating `VARIANT_CHOICES` in insertion order. -/
def setupAliases : List (String × String) × List (String × String) :=
  VARIANT_CHOICES.foldl
    (fun st iv =>
      let st1 : List (String × String) × List (String × String) :=
        (dictUpdate (dictSet st.1 (pyLower iv.1) iv.1) (wordAliases iv.1), st.2)
      iv.2.foldl
        (fun st' variant =>
          (dictUpdate (dictSet st'.1 (pyLower variant) variant) (wordAliases variant),
           st'.2 ++ [(iv.1, variant)]))
        st1)
    ([], [])

def ALIAS_MAPS : List (String × String) := setupAliases.1

def ALL_ITEM_VARIANT_COMBOS : List (String × String) := setupAliases.2

/-! ## Replay: the last-action fold (count_bot.py lines 410-439) -/

/-- `TransLogAction` (line 410): the folded action for one primary key.
`count = none` models Python `None` (a deletion). -/
structure TransLogAction where
  count : Option Int
  update_time : Nat
deriving DecidableEq, Repr

/-- A primary key of a `last_action` dict: a 3-tuple for the personal roles,
a 4-tuple `(member, collector, item, variant)` for the dropbox role
(lines 415-418). -/
inductive TransKey where
  | p (userId : Nat) (item variant : String)
  | t (userId collectorId : Nat) (item variant : String)
deriving DecidableEq, Repr

/-- A `last_action` dict: an insertion-ordered association list. -/
abbrev LastAction := List (TransKey × TransLogAction)

/-- `_process_one_trans_record` (lines 414-439).  Returns `none` when the
Python code would raise — `parts[1]` (IndexError) or `int(parts[1])`
(ValueError) on a malformed count entry — which aborts the replay walk. -/
def _process_one_trans_record (memberId : Nat) (collector : Option Nat)
    (last_action : LastAction) (item variant command : String)
    (update_time : Nat) : Option LastAction :=
  let key : TransKey :=
    match collector with
    | none => .p memberId item variant
    | some c => .t memberId c item variant
  if (alookup key last_action).isSome then
    some last_action                     -- 'superseded by count or remove'
  else if item = "remove" ∧ variant = "all" then
    some (ALL_ITEM_VARIANT_COMBOS.foldl
      (fun la combo =>
        let comboKey := TransKey.p memberId combo.1 combo.2
        if (alookup comboKey la).isSome then la
        else la ++ [(comboKey, ⟨none, update_time⟩)])
      last_action)
  else if pyStartsWith "remove" command then
    some (last_action ++ [(key, ⟨none, update_time⟩)])
  else if pyStartsWith "count" command then
    match (pySplitWs command)[1]? with
    | none => none                       -- IndexError on `parts[1]`
    | some cstr =>
      match intParse? cstr with
      | none => none                     -- ValueError from `int(parts[1])`
      | some n => some (last_action ++ [(key, ⟨some n, update_time⟩)])
  else some last_action                  -- 'I DO NOT UNDERSTAND THIS COMMAND'

/-- One decoded non-checkpoint log record, as handed to
`_process_one_trans_record` by the replay walk. -/
structure TransRecord where
  memberId : Nat
  collector : Option Nat
  item : String
  variant : String
  command : String
  update_time : Nat
deriving DecidableEq, Repr

/-- The primary key `_process_one_trans_record` computes for a record
(lines 415-418): a 3-tuple for the personal roles, a 4-tuple carrying the
collector for the dropbox role. -/
def recKey (r : TransRecord) : TransKey :=
  match r.collector with
  | none => TransKey.p r.memberId r.item r.variant
  | some c => TransKey.t r.memberId c r.item r.variant

/-- Fold a list of records, given newest-first (the log walk order), through
`_process_one_trans_record`, starting from the map `la`. -/
def processRecords (recs : List TransRecord) (la : LastAction) : Option LastAction :=
  match recs with
  | [] => some la
  | r :: rest =>
    match _process_one_trans_record r.memberId r.collector la r.item r.variant
        r.command r.update_time with
    | none => none
    | some la' => processRecords rest la'

/-- The replay fold: walk the records newest-to-oldest starting from the
empty map. -/
def replayFold (recs : List TransRecord) : Option LastAction := processRecords recs []

/-- The action a record denotes: `none` when `_process_one_trans_record`
would either raise or not understand the command. -/
def recAction (r : TransRecord) : Option TransLogAction :=
  if pyStartsWith "remove" r.command then some ⟨none, r.update_time⟩
  else if pyStartsWith "count" r.command then
    match (pySplitWs r.command)[1]? with
    | none => none
    | some cstr => (intParse? cstr).map (fun n => ⟨some n, r.update_time⟩)
  else none

/-- Spec-side definition, following the spec's words: apply the Actions in
chronological order; the last one wins. -/
def chronLastWins (chron : List TransRecord) : Option TransLogAction :=
  chron.foldl
    (fun acc r =>
      match recAction r with
      | some a => some a
      | none => acc)
    none

/-! ## State store and the write path (count_bot.py lines 93-134, 684-813) -/

/-- A row of a personal inventory table (maker and collector roles):
`PERSONAL_DF_COLUMNS` (line 117). -/
structure PRow where
  user_id : Nat
  item : String
  variant : String
  count : Int
  update_time : Nat
deriving DecidableEq, Repr

/-- A personal inventory dataframe, uniquely indexed by
`(user_id, item, variant)`. -/
abbrev PDf := List PRow

/-- A row of the dropbox (transaction) table: `TRANSACTION_DF_COLUMNS`
(line 122), indexed by `(user_id, item, variant, second_user_id)`. -/
structure TRow where
  user_id : Nat
  item : String
  variant : String
  second_user_id : Nat
  count : Int
  update_time : Nat
deriving DecidableEq, Repr

abbrev TDf := List TRow

/-- `df.loc[(user_id, item, variant)] = [...]` on a uniquely-indexed frame:
replace in place, or append a new row (line 811). -/
def pUpsert (df : PDf) (u : Nat) (i v : String) (c : Int) (t : Nat) : PDf :=
  if df.any (fun r => decide (r.user_id = u ∧ r.item = i ∧ r.variant = v)) then
    df.map (fun r =>
      if r.user_id = u ∧ r.item = i ∧ r.variant = v then ⟨u, i, v, c, t⟩ else r)
  else df ++ [⟨u, i, v, c, t⟩]

/-- The inventory roles (lines 126-128). -/
inductive Role where
  | makers
  | collectors
  | dropboxes
deriving DecidableEq, Repr

/-- One message of the inventory channel, as the transport presents it:
author flag, raw text, the (unordered) mention list, attachments as
(filename, content) pairs, and a timestamp. -/
structure Msg where
  fromBot : Bool
  content : String
  mentions : List Nat
  attachments : List (String × String)
  createdAt : Nat
deriving DecidableEq, Repr

/-- A Discord mention of a user id, as rendered into message text. -/
def mentionStr (uid : Nat) : String := "<@" ++ natRepr uid ++ ">"

/-- `_post_user_record_to_trans_log` (lines 604-626): the transaction record
posted to the inventory channel, `'✅ ' + '{mention}: {command} {detail}'`,
authored by the bot; the transport reports every user mentioned in the text.
-/
def transMsg (authorId : Nat) (command detail : String) (now : Nat)
    (extraMention : Option Nat) : Msg :=
  { fromBot := true,
    content := "✅ " ++ mentionStr authorId ++ ": " ++ command ++ " " ++ detail,
    mentions := authorId :: extraMention.toList,
    attachments := [],
    createdAt := now }

/-- Observable effects of a command, in order: a dry-run validation of a
role's ledger, a message posted to the external log, an in-memory table
mutation. -/
inductive Event where
  | validate (role : Role) (userId : Nat) (amount : Int)
  | post (entry : Msg)
  | mutate (role : Role)
deriving DecidableEq, Repr

/-- The user-visible rejection reasons of the write path. -/
inductive Reject where
  | noItemsYet
  | ambiguousItem
  | noVariantRecorded (item : String)
  | ambiguousVariant
  | unknownItem (s : String)
  | invalidItem (s : String)
  | unknownVariant (s : String)
  | invalidVariant (s item : String)
  | negative
deriving DecidableEq, Repr

/-- `_resolve_item_name` (lines 579-589). -/
def resolveItemName (item : String) : Except Reject String :=
  match alookup (pyLower item) ALIAS_MAPS with
  | none => .error (.unknownItem item)
  | some name =>
    if name ∈ ITEM_CHOICES then .ok name else .error (.invalidItem name)

/-- `_resolve_variant_name` (lines 591-602); callers always pass a validated
item, for which `VARIANT_CHOICES.get(item)` is never `None`. -/
def resolveVariantName (item variant : String) : Except Reject String :=
  match alookup (pyLower variant) ALIAS_MAPS with
  | none => .error (.unknownVariant variant)
  | some name =>
    if name ∈ (alookup item VARIANT_CHOICES).getD [] then .ok name
    else .error (.invalidVariant name item)

/-- Outcome of the validation segment of `_count` — everything before the
`trial_run_only` return (line 801). -/
inductive CoreOut where
  | showInventory
  | helpNoRecords
  | reject (r : Reject)
  | proceed (total : Int) (item variant : String) (current : Int)
deriving DecidableEq, Repr

/-- The validation segment of `_count` (lines 696-799), shared verbatim by
dry runs and commits: the maker read shortcut, item/variant narrowing from
the actor's rows, alias resolution, delta application against the stored
count, and the negative-count rejection. -/
def countCore (df : PDf) (userId : Nat) (total : Option Int)
    (item? variant? : Option String) (delta : Bool) (role : Role) : CoreOut :=
  if role = .makers ∧ item? = none ∧ variant? = none ∧ total = none then
    .showInventory
  else
    let cond0 := df.filter (fun r => decide (r.user_id = userId))
    match total with
    | none => if cond0.length = 0 then .helpNoRecords else .showInventory
    | some total0 =>
      let narrowed : Except Reject (String × String) :=
        if item? = none ∨ variant? = none then
          let stage : Except Reject (PDf × Nat × Option String × Option String) :=
            match item? with
            | none =>
              if cond0.length = 0 then .error .noItemsYet
              else if cond0.length > 1 then .error .ambiguousItem
              else .ok (cond0, cond0.length, item?, variant?)
            | some itemArg =>
              match resolveItemName itemArg with
              | .error e => .error e
              | .ok item1 =>
                let cond1 := df.filter
                  (fun r => decide (r.user_id = userId ∧ r.item = item1))
                if alookup item1 VARIANT_CHOICES = some [" "] then
                  .ok (cond1, cond1.length, some item1, some " ")
                else if cond1.length = 0 then .error (.noVariantRecorded item1)
                else if cond1.length > 1 then .error .ambiguousVariant
                else .ok (cond1, cond1.length, some item1, variant?)
          match stage with
          | .error e => .error e
          | .ok (cond, found, it?, vr?) =>
            if found = 1 then
              match cond with
              | row :: _ => .ok (row.item, row.variant)
              | [] => .ok (it?.getD "", vr?.getD "")
            else .ok (it?.getD "", vr?.getD "")
        else .ok (item?.getD "", variant?.getD "")
      match narrowed with
      | .error r => .reject r
      | .ok (item2, variant2) =>
        match resolveItemName item2 with
        | .error e => .reject e
        | .ok item3 =>
          match resolveVariantName item3 variant2 with
          | .error e => .reject e
          | .ok variant3 =>
            let rows := df.filter (fun r =>
              decide (r.user_id = userId ∧ r.item = item3 ∧ r.variant = variant3))
            let current : Int :=
              match rows with
              | [row] => row.count
              | _ => 0
            let total1 := if delta then total0 + current else total0
            if total1 < 0 then .reject .negative
            else .proceed total1 item3 variant3 current

/-- The result of a `_count` invocation. -/
inductive CountResult where
  | shown
  | helpNoRecords
  | rejected (r : Reject)
  | trial (total : Int) (item variant : String)
  | committed (total : Int) (item variant : String)
  | sendFailed
deriving DecidableEq, Repr

/-- The verb recorded in the log for a count (line 805). -/
def countCmdText (role : Role) : String :=
  if role = .makers then "count" else "collect count"

/-- `_count` (lines 684-813): validation via `countCore`; with
`trial_run_only` the resolved triple is returned without effects; otherwise
the Action text is posted to the inventory channel first (`appendOk = false`
models a raised send failure, which aborts the command) and only then is the
in-memory dataframe updated. -/
def _count (df : PDf) (userId : Nat) (total : Option Int)
    (item? variant? : Option String) (delta : Bool) (role : Role)
    (trial_run_only : Bool) (appendOk : Bool) (now : Nat) :
    CountResult × PDf × List Event :=
  match countCore df userId total item? variant? delta role with
  | .showInventory => (.shown, df, [])
  | .helpNoRecords => (.helpNoRecords, df, [])
  | .reject r => (.rejected r, df, [])
  | .proceed total1 item1 variant1 _current =>
    if trial_run_only then (.trial total1 item1 variant1, df, [])
    else
      let entry := transMsg userId (countCmdText role)
        (intRepr total1 ++ " " ++ item1 ++ " " ++ variant1) now none
      if appendOk then
        (.committed total1 item1 variant1,
         pUpsert df userId item1 variant1 total1 now,
         [.post entry, .mutate role])
      else (.sendFailed, df, [])

/-- The result of a `_remove` invocation (lines 861-947). -/
inductive RemoveResult where
  | nothingToRemove
  | rejected (r : Reject)
  | removedAll
  | removed (item variant : String)
  | internalError
  | sendFailed
deriving DecidableEq, Repr

/-- The verb recorded in the log for a remove (lines 879, 943). -/
def removeCmdText (role : Role) : String :=
  if role = .makers then "remove" else "collect remove"

/-- The narrowing stage of `_remove` (lines 886-921): choose the item and
variant to delete from the actor's rows when not fully specified. -/
def removeNarrow (df : PDf) (userId : Nat) (item? variant? : Option String) :
    Except RemoveResult (String × String) :=
  let cond0 := df.filter (fun r => decide (r.user_id = userId))
  if item? = none ∧ variant? = none then
    if cond0.length = 1 then
      match cond0 with
      | row :: _ => .ok (row.item, row.variant)
      | [] => .error .nothingToRemove
    else .error (.rejected .ambiguousItem)
  else
    match item? with
    | none =>
      -- unreachable from the bot's callers (`variant` implies `item`);
      -- Python would raise on `None.lower()`, leaving state unchanged
      .error .internalError
    | some itemArg =>
      match variant? with
      | some v => .ok (itemArg, v)
      | none =>
        match resolveItemName itemArg with
        | .error e => .error (.rejected e)
        | .ok item1 =>
          let cond1 := df.filter
            (fun r => decide (r.user_id = userId ∧ r.item = item1))
          if cond1.length = 1 then
            match cond1 with
            | row :: _ => .ok (item1, row.variant)
            | [] => .error .nothingToRemove
          else if cond1.length > 1 then .error (.rejected .ambiguousVariant)
          else .error .nothingToRemove

/-- `_remove` (lines 861-947): narrowing from the actor's rows, the
`remove all` branch, alias resolution, the exactly-one-row check, then
post-to-log followed by the dataframe deletion.  As in `_count`,
`appendOk = false` models a raised send failure. -/
def _remove (df : PDf) (userId : Nat) (item? variant? : Option String)
    (role : Role) (appendOk : Bool) (now : Nat) :
    RemoveResult × PDf × List Event :=
  let cond0 := df.filter (fun r => decide (r.user_id = userId))
  if cond0.length = 0 then (.nothingToRemove, df, [])
  else if item? = some "all" then
    let entry := transMsg userId (removeCmdText role) "all" now none
    if appendOk then
      (.removedAll, df.filter (fun r => decide (¬ r.user_id = userId)),
       [.post entry, .mutate role])
    else (.sendFailed, df, [])
  else
    match removeNarrow df userId item? variant? with
    | .error res => (res, df, [])
    | .ok (item2, variant2) =>
      match resolveItemName item2 with
      | .error e => (.rejected e, df, [])
      | .ok item3 =>
        match resolveVariantName item3 variant2 with
        | .error e => (.rejected e, df, [])
        | .ok variant3 =>
          let rows := df.filter (fun r =>
            decide (r.user_id = userId ∧ r.item = item3 ∧ r.variant = variant3))
          if rows.length = 0 then (.nothingToRemove, df, [])
          else if rows.length ≠ 1 then (.internalError, df, [])
          else
            let entry := transMsg userId (removeCmdText role)
              (item3 ++ " " ++ variant3) now none
            if appendOk then
              (.removed item3 variant3,
               df.filter (fun r => decide (¬ (r.user_id = userId ∧
                 r.item = item3 ∧ r.variant = variant3))),
               [.post entry, .mutate role])
            else (.sendFailed, df, [])

/-- A write-path command against one maker/collector table: `count`, `add`
and `reset` all commit through `_count` (with `delta`/`total` as recorded at
lines 682, 829, 843), `remove` through `_remove`; transfers commit their
per-role sides through the same `_count` path. -/
inductive MCCmd where
  | countC (userId : Nat) (total : Option Int) (item variant : Option String)
      (delta : Bool) (appendOk : Bool) (now : Nat)
  | removeC (userId : Nat) (item variant : Option String) (appendOk : Bool) (now : Nat)
deriving DecidableEq, Repr

/-- Apply one command to a role's table, keeping the updated dataframe. -/
def applyCmd (role : Role) (df : PDf) : MCCmd → PDf
  | .countC u t i v d ok now => (_count df u t i v d role false ok now).2.1
  | .removeC u i v ok now => (_remove df u i v role ok now).2.1

/-- Run a sequence of commands against a role's table. -/
def applyCmds (role : Role) (df : PDf) (cmds : List MCCmd) : PDf :=
  cmds.foldl (applyCmd role) df

/-- No stored row has a negative count. -/
def nonnegDf (df : PDf) : Prop := ∀ r ∈ df, 0 ≤ r.count

/-! ## Replay: rebuilding the per-role tables from the sync point and the
folded actions (count_bot.py lines 302-370) -/

/-- A row of a parsed sync-point table; `second_user_id` is present only in
the dropbox table. -/
structure SyncRow where
  user_id : Nat
  item : String
  variant : String
  second_user_id : Option Nat
  count : Int
  update_time : Nat
deriving DecidableEq, Repr

/-- `RoleBootstrap.rebuild_inventory_df_from_sync_n_updates` (lines 333-348):
first the folded actions with a non-null count, then the sync-point rows
whose key does not appear in the folded-action map.  Personal `last_action`
maps only ever hold 3-tuple keys; a 4-tuple key would make the Python tuple
unpacking raise, so it contributes nothing here. -/
def rebuild_inventory_personal (last_action : LastAction) (sync : List SyncRow) :
    List PRow :=
  let rows1 := last_action.foldl
    (fun rows kv =>
      match kv with
      | (.p u i v, a) =>
        match a.count with
        | some c => rows ++ [⟨u, i, v, c, a.update_time⟩]
        | none => rows
      | (.t _ _ _ _, _) => rows)
    []
  sync.foldl
    (fun rows r =>
      if alookup (TransKey.p r.user_id r.item r.variant) last_action = none then
        rows ++ [⟨r.user_id, r.item, r.variant, r.count, r.update_time⟩]
      else rows)
    rows1

/-- `TransactionRoleBootstrap.rebuild_inventory_df_from_sync_n_updates`
(lines 354-370): like the personal rebuild, but a zero count is dropped both
from the folded actions (Python truthiness of `action.count`) and from the
sync-point rows, and keys carry the second (collector) user id.  A sync row
without a `second_user_id` would raise a `KeyError` in Python; it
contributes nothing here. -/
def rebuild_inventory_transaction (last_action : LastAction) (sync : List SyncRow) :
    List TRow :=
  let rows1 := last_action.foldl
    (fun rows kv =>
      match kv with
      | (.t m c i v, a) =>
        match a.count with
        | some n =>
          if n = 0 then rows else rows ++ [⟨m, i, v, c, n, a.update_time⟩]
        | none => rows
      | (.p _ _ _, _) => rows)
    []
  sync.foldl
    (fun rows r =>
      match r.second_user_id with
      | none => rows
      | some s =>
        if alookup (TransKey.t r.user_id s r.item r.variant) last_action = none ∧
            r.count ≠ 0 then
          rows ++ [⟨r.user_id, r.item, r.variant, s, r.count, r.update_time⟩]
        else rows)
    rows1

/-- Spec-side definition, following the spec's words: final rows are the
union of the folded actions with non-null result and the checkpoint rows
whose key is absent from the folded-action map. -/
def specRebuildPersonal (last_action : LastAction) (sync : List SyncRow) :
    List PRow :=
  (last_action.filterMap (fun kv =>
    match kv with
    | (.p u i v, a) => a.count.map (fun c => (⟨u, i, v, c, a.update_time⟩ : PRow))
    | _ => none)) ++
  ((sync.filter (fun r =>
      decide (alookup (TransKey.p r.user_id r.item r.variant) last_action = none))).map
    (fun r => (⟨r.user_id, r.item, r.variant, r.count, r.update_time⟩ : PRow)))

/-- Spec-side definition for the dropbox role: the same union, with
zero-count rows excluded from both parts. -/
def specRebuildTransaction (last_action : LastAction) (sync : List SyncRow) :
    List TRow :=
  (last_action.filterMap (fun kv =>
    match kv with
    | (.t m c i v, a) =>
      match a.count with
      | some n => if n = 0 then none else some ⟨m, i, v, c, n, a.update_time⟩
      | none => none
    | _ => none)) ++
  (sync.filterMap (fun r =>
    match r.second_user_id with
    | none => none
    | some s =>
      if alookup (TransKey.t r.user_id s r.item r.variant) last_action = none ∧
          r.count ≠ 0 then
        some ⟨r.user_id, r.item, r.variant, s, r.count, r.update_time⟩
      else none))

/-! ## Transfer protocol (count_bot.py lines 1360-1393 and 1395-1498) -/

/-- The result of a transfer (`_collect_from` or `drop`). -/
inductive XferResult where
  | rejectedZero                        -- zero-amount guard
  | abortedTrial                        -- a dry run returned None
  | trialOk (num : Int) (item variant : Option String)
  | committedOk                         -- collect-from committed both sides
  | sendFailed
  | badNum (s : String)                 -- drop: int(num) parse failure
  | notCollector                        -- drop: collector role check failed
  | dropNegative (new : Int)            -- drop: dropbox count would go negative
  | dropCommitted (new : Int) (item variant : String)
deriving DecidableEq, Repr

/-- `_collect_from` (lines 1360-1393): a zero guard, a dry run of the
maker-side debit and the collector-side credit, and — only if both succeed
and this is not itself a trial — the two commits, maker debit first.  The
commit calls are not result-checked in Python; only a raised send failure
(modelled by `appendOk = false`) stops the sequence. -/
def _collect_from (makersDf collectorsDf : PDf) (collectorId makerId : Nat)
    (num : Int) (item? variant? : Option String) (trial_run_only : Bool)
    (appendOk : Bool) (now : Nat) :
    XferResult × PDf × PDf × List Event :=
  if num = 0 then (.rejectedZero, makersDf, collectorsDf, [])
  else
    let t1 := _count makersDf makerId (some (-num)) item? variant? true .makers
      true appendOk now
    let ev1 : List Event := [.validate .makers makerId (-num)]
    match t1.1 with
    | .trial _ _ _ =>
      let t2 := _count collectorsDf collectorId (some num) item? variant? true
        .collectors true appendOk now
      let ev2 := ev1 ++ [.validate .collectors collectorId num]
      match t2.1 with
      | .trial _ _ _ =>
        if trial_run_only then (.trialOk num item? variant?, makersDf, collectorsDf, ev2)
        else
          let c1 := _count makersDf makerId (some (-num)) item? variant? true
            .makers false appendOk now
          match c1.1 with
          | .sendFailed => (.sendFailed, c1.2.1, collectorsDf, ev2 ++ c1.2.2)
          | _ =>
            let c2 := _count collectorsDf collectorId (some num) item? variant? true
              .collectors false appendOk now
            match c2.1 with
            | .sendFailed => (.sendFailed, c1.2.1, c2.2.1, ev2 ++ c1.2.2 ++ c2.2.2)
            | _ => (.committedOk, c1.2.1, c2.2.1, ev2 ++ c1.2.2 ++ c2.2.2)
      | _ => (.abortedTrial, makersDf, collectorsDf, ev2)
    | _ => (.abortedTrial, makersDf, collectorsDf, ev1)

/-- `df.loc[(maker, item, variant, collector)] = [...]` on the dropbox
table (lines 1491-1492). -/
def tUpsert (df : TDf) (m : Nat) (i v : String) (c2 : Nat) (cnt : Int) (t : Nat) : TDf :=
  if df.any (fun r => decide (r.user_id = m ∧ r.item = i ∧ r.variant = v ∧
      r.second_user_id = c2)) then
    df.map (fun r =>
      if r.user_id = m ∧ r.item = i ∧ r.variant = v ∧ r.second_user_id = c2 then
        ⟨m, i, v, c2, cnt, t⟩
      else r)
  else df ++ [⟨m, i, v, c2, cnt, t⟩]

/-- The drop record posted to the log (lines 1487-1488): the absolute new
dropbox count, not the delta, mentioning maker and collector. -/
def dropEntry (makerId collectorId : Nat) (new : Int) (item variant : String)
    (now : Nat) : Msg :=
  transMsg makerId "drop"
    (mentionStr collectorId ++ " " ++ intRepr new ++ " " ++ item ++ " " ++ variant)
    now (some collectorId)

/-- The current dropbox count for a (maker, item, variant, collector) key
(lines 1465-1471): the stored row's count, or 0 when absent. -/
def dropboxCurrent (ddf : TDf) (mk coll : Nat) (i v : String) : Int :=
  match ddf.filter (fun r => decide (r.user_id = mk ∧ r.item = i ∧
      r.variant = v ∧ r.second_user_id = coll)) with
  | [row] => row.count
  | _ => 0

/-- The continuation of `drop` after the amount has been resolved
(lines 1428-1498): the zero guard, the collector role check, a maker-side
dry run, a `_collect_from` dry run for non-negative amounts, the dropbox
non-negativity check, then the commit — maker debit via `_count`, the drop
record post, and the dropbox upsert (or delete at zero).  `ev0` carries the
events of the amount resolution. -/
def dropWithNum (makersDf collectorsDf : PDf) (dropboxDf : TDf)
    (makerId collectorId : Nat) (num : Int) (ev0 : List Event)
    (item? variant? : Option String) (isCollector : Bool)
    (appendOk : Bool) (now : Nat) :
    XferResult × PDf × TDf × List Event :=
  if num = 0 then (.rejectedZero, makersDf, dropboxDf, ev0)
  else if ¬ isCollector then (.notCollector, makersDf, dropboxDf, ev0)
  else
    let t1 := _count makersDf makerId (some (-num)) item? variant? true .makers
      true appendOk now
    let ev1 := ev0 ++ [.validate .makers makerId (-num)]
    match t1.1 with
    | .trial _cur cItem cVariant =>
      let afterCollect : Except (List Event) (List Event) :=
        if 0 ≤ num then
          let cf := _collect_from makersDf collectorsDf collectorId makerId num
            (some cItem) (some cVariant) true appendOk now
          match cf.1 with
          | .trialOk _ _ _ => .ok (ev1 ++ cf.2.2.2)
          | _ => .error (ev1 ++ cf.2.2.2)
        else .ok ev1
      match afterCollect with
      | .error ev => (.abortedTrial, makersDf, dropboxDf, ev)
      | .ok ev2 =>
        let new := num + dropboxCurrent dropboxDf makerId collectorId cItem cVariant
        if new < 0 then (.dropNegative new, makersDf, dropboxDf, ev2)
        else
          let c1 := _count makersDf makerId (some (-num)) (some cItem)
            (some cVariant) true .makers false appendOk now
          match c1.1 with
          | .sendFailed => (.sendFailed, c1.2.1, dropboxDf, ev2 ++ c1.2.2)
          | _ =>
            if appendOk then
              let dropboxDf2 :=
                if new ≠ 0 then
                  tUpsert dropboxDf makerId cItem cVariant collectorId new now
                else
                  dropboxDf.filter (fun r => decide (¬ (r.user_id = makerId ∧
                    r.item = cItem ∧ r.variant = cVariant ∧
                    r.second_user_id = collectorId)))
              (.dropCommitted new cItem cVariant, c1.2.1, dropboxDf2,
               ev2 ++ c1.2.2 ++
                 [.post (dropEntry makerId collectorId new cItem cVariant now),
                  .mutate .dropboxes])
            else (.sendFailed, c1.2.1, dropboxDf, ev2 ++ c1.2.2)
    | _ => (.abortedTrial, makersDf, dropboxDf, ev1)

/-- `drop` (lines 1398-1498): amount resolution — `'all'` resolves through a
maker-side dry run, otherwise `int(num)` — followed by the transfer
continuation.  The collectors table is never written (only dry-run read). -/
def drop (makersDf collectorsDf : PDf) (dropboxDf : TDf)
    (makerId collectorId : Nat) (numInput : String)
    (item? variant? : Option String) (isCollector : Bool)
    (appendOk : Bool) (now : Nat) :
    XferResult × PDf × TDf × List Event :=
  let numRes : Except (XferResult × List Event) (Int × List Event) :=
    if numInput = "all" then
      let t := _count makersDf makerId (some 0) item? variant? true .makers
        true appendOk now
      match t.1 with
      | .trial n _ _ => .ok (n, [.validate .makers makerId 0])
      | _ => .error (.abortedTrial, [.validate .makers makerId 0])
    else
      match intParse? numInput with
      | some n => .ok (n, [])
      | none => .error (.badNum numInput, [])
  match numRes with
  | .error (res, ev) => (res, makersDf, dropboxDf, ev)
  | .ok (num, ev0) =>
    dropWithNum makersDf collectorsDf dropboxDf makerId collectorId num ev0
      item? variant? isCollector appendOk now

/-- Is this event a dry-run validation (as opposed to a log write or a table
mutation)? -/
def isValidation : Event → Bool
  | .validate _ _ _ => true
  | _ => false

/-! ## Checkpoint (sync point) codec (count_bot.py lines 211-233, 320-331,
467-493) -/

/-- Join strings with a separator (used for CSV cells and lines). -/
def joinWith (sep : String) : List String → String
  | [] => ""
  | [x] => x
  | x :: y :: xs => x ++ sep ++ joinWith sep (y :: xs)

def PERSONAL_DF_COLUMNS : List String :=
  ["user_id", "item", "variant", "count", "update_time"]

def TRANSACTION_DF_COLUMNS : List String :=
  ["user_id", "item", "variant", "second_user_id", "count", "update_time"]

/-- The serialized form of a naive-UTC timestamp; modelled as an injective
decimal rendering, with `timeParse?` its inverse (pandas `parse_dates` on
read). -/
def renderTime (t : Nat) : String := natRepr t

def timeParse? (s : String) : Option Nat := natParse? s

/-- The CSV line of one personal row, with the appended display-name cell. -/
def personalCsvLine (names : Nat → String) (r : PRow) : String :=
  joinWith ","
    [natRepr r.user_id, r.item, r.variant, intRepr r.count,
     renderTime r.update_time, names r.user_id]

/-- The lines of one personal role's CSV, header first. -/
def personalCsvLines (names : Nat → String) (df : PDf) : List String :=
  (joinWith "," (PERSONAL_DF_COLUMNS ++ ["user"])) :: df.map (personalCsvLine names)

/-- One personal role's section of the checkpoint CSV:
`_add_user_display_name_column` appends the display-name column, then
`to_csv(index=False)` writes the header and one line per row, each ended by
a newline (lines 214-217). -/
def personalCsv (names : Nat → String) (df : PDf) : String :=
  joinWith "\n" (personalCsvLines names df) ++ "\n"

/-- The CSV line of one dropbox row, with the appended display-name cell. -/
def transactionCsvLine (names : Nat → String) (r : TRow) : String :=
  joinWith ","
    [natRepr r.user_id, r.item, r.variant, natRepr r.second_user_id,
     intRepr r.count, renderTime r.update_time, names r.user_id]

/-- The lines of the dropbox role's CSV, header first. -/
def transactionCsvLines (names : Nat → String) (df : TDf) : List String :=
  (joinWith "," (TRANSACTION_DF_COLUMNS ++ ["user"])) :: df.map (transactionCsvLine names)

/-- The dropbox role's section of the checkpoint CSV. -/
def transactionCsv (names : Nat → String) (df : TDf) : String :=
  joinWith "\n" (transactionCsvLines names df) ++ "\n"

/-- `_post_sync_point_to_trans_log` (lines 211-233): each role's CSV in
`USER_ROLES_IN_ORDER`, a blank separator line after each, then the
schema-version tag. -/
def encodeCheckpoint (names : Nat → String) (makers collectors : PDf)
    (dropboxes : TDf) : String :=
  personalCsv names makers ++ "\n" ++ personalCsv names collectors ++ "\n" ++
    transactionCsv names dropboxes ++ "\n" ++
    "version\n'" ++ CODE_VERSION ++ "'\n"

/-- Python `s.split('\n\n')`. -/
def splitNN : List Char → List (List Char)
  | [] => [[]]
  | '\n' :: '\n' :: rest => [] :: splitNN rest
  | c :: rest =>
    match splitNN rest with
    | r :: rs => (c :: r) :: rs
    | [] => [[c]]

def pySplitNN (s : String) : List String := (splitNN s.data).map String.mk

/-- Position of a column name in a CSV header. -/
def colIdx (name : String) : List String → Option Nat
  | [] => none
  | h :: rest => if h = name then some 0 else (colIdx name rest).map (· + 1)

/-- `RoleBootstrap.read_sync_point_csv` (lines 320-331) composed with the
typed reading pandas performs: locate the columns by name (which drops the
`user` display-name column, present since V0.3), parse the numeric cells,
parse `update_time` when the column exists (`parse_dates`) and default it to
now (`datetime.utcnow()`) when it does not; `second_user_id` is picked up
for the dropbox table.  `none` models a raised parse failure. -/
def readSyncPointCsv (now : Nat) (csvText : String) : Option (List SyncRow) :=
  let lines := (pySplitChar '\n' csvText).filter (· ≠ "")
  match lines with
  | [] => none
  | headerLine :: rowLines =>
    let header := pySplitChar ',' headerLine
    match colIdx "user_id" header, colIdx "item" header,
        colIdx "variant" header, colIdx "count" header with
    | some iU, some iI, some iV, some iC =>
      let iS := colIdx "second_user_id" header
      let iT := colIdx "update_time" header
      rowLines.mapM (fun ln =>
        let cells := pySplitChar ',' ln
        match (cells[iU]?).bind natParse?, cells[iI]?, cells[iV]?,
            (cells[iC]?).bind intParse? with
        | some u, some i, some v, some c =>
          let s? : Option (Option Nat) :=
            match iS with
            | none => some none
            | some j => ((cells[j]?).bind natParse?).map some
          let t? : Option Nat :=
            match iT with
            | none => some now
            | some j => (cells[j]?).bind timeParse?
          match s?, t? with
          | some s, some t => some ⟨u, i, v, s, c, t⟩
          | _, _ => none
        | _, _, _, _ => none)
    | _, _, _, _ => none

/-- The sync-point branch of the replay walk (lines 467-493): split the
attachment on blank lines, drop the trailing version section, and read one
section per role in `USER_ROLES_IN_ORDER`; a checkpoint with fewer sections
than roles leaves the remaining roles' sync tables empty. -/
def decodeCheckpoint (now : Nat) (csvText : String) :
    Option (List SyncRow × List SyncRow × List SyncRow) :=
  let tables := (pySplitNN csvText).dropLast
  let parseAt : Nat → Option (List SyncRow) := fun idx =>
    match tables[idx]? with
    | none => some []
    | some t => readSyncPointCsv now t
  match parseAt 0, parseAt 1, parseAt 2 with
  | some a, some b, some c => some (a, b, c)
  | _, _, _ => none

/-! ### Checkpoint codec round-trip machinery -/

/-- A well-formed CSV cell: free of the separator and newline characters. -/
def cleanCell (s : String) : Bool :=
  s.data.all (fun c => decide (c ≠ ',' ∧ c ≠ '\n'))

/-- The sync row a serialized personal row reads back as. -/
def syncOfP (r : PRow) : SyncRow :=
  ⟨r.user_id, r.item, r.variant, none, r.count, r.update_time⟩

/-- The sync row a serialized dropbox row reads back as. -/
def syncOfT (r : TRow) : SyncRow :=
  ⟨r.user_id, r.item, r.variant, some r.second_user_id, r.count, r.update_time⟩

/-- No two adjacent newline characters. -/
def noNN : List Char → Bool
  | [] => true
  | [_] => true
  | a :: b :: rest => !(a = '\n' && b = '\n') && noNN (b :: rest)

/-- Modelled from the spec: an older-schema personal CSV section, written
before the `update_time` column existed (the V0.3-era display-name column is
present).  A legacy row is `(user_id, item, variant, count)`. -/
def legacyPersonalCsvLines (names : Nat → String)
    (rows : List (Nat × String × String × Int)) : List String :=
  (joinWith "," ["user_id", "item", "variant", "count", "user"]) ::
    rows.map (fun r => joinWith ","
      [natRepr r.1, r.2.1, r.2.2.1, intRepr r.2.2.2, names r.1])

/-- The sync row a legacy personal row reads back as: `update_time` defaults
to the read time. -/
def syncOfLegacy (now : Nat) (r : Nat × String × String × Int) : SyncRow :=
  ⟨r.1, r.2.1, r.2.2.1, none, r.2.2.2, now⟩

/-! ### Symbolic word-splitting machinery, for the drop-entry round trip -/

/-- A well-formed command token: nonempty, and free of whitespace, of the
colon that separates the member mention from the command, and of the
parenthesis ending the DM-chat suffix. -/
def tokenWf (s : String) : Bool :=
  (decide (s.data ≠ [])) && s.data.all (fun c =>
    (!c.isWhitespace) && (decide (c ≠ ':')) && (decide (c ≠ ')')))

/-! ## The replay walk (count_bot.py lines 441-552) -/

/-- Whether a raw log entry decodes to an Action, a checkpoint, a skipped
entry, or an unhandled exception. -/
inductive Decoded where
  | ignore
  | syncSkip
  | syncPoint (csvText : String)
  | record (role : Role) (memberId : Nat) (collector : Option Nat)
      (item variant command : String)
  | crash
deriving DecidableEq, Repr

/-- The per-message decoding of the replay walk (lines 456-529): author and
confirmation-marker filters, the DM suffix strip, the sync-point branch with
its guarded attachment checks, then the mention-based Action parse, whose
unpacking, mention lookups and splits raise on malformed shapes
(`.crash`). -/
def decodeLogEntry (m : Msg) : Decoded :=
  if ¬ m.fromBot then .ignore
  else if ¬ pyStartsWith "✅ " m.content then .ignore
  else
    let text := if pyEndsWith " (from DM chat)" m.content
      then pyDropRight m.content 15 else m.content
    if pyEndsWith "sync point" text then
      match m.attachments with
      | [] => .syncSkip
      | (fname, fcontent) :: _ =>
        if fname ≠ PRODUCT_CSV_FILE_NAME then .syncSkip
        else .syncPoint fcontent
    else if m.mentions ≠ [] then
      let mention_map := m.mentions.map (fun uid => (natRepr uid, uid))
      match pyRsplitWs text 2 with
      | [head0, item0, variant0] =>
        let hiv :=
          if variant0 ∈ ITEMS_WITH_NO_VARIANTS then
            (head0 ++ " " ++ item0, variant0, " ")
          else (head0, item0, variant0)
        match pySplitChar ':' hiv.1 with
        | [memberPart, commandHead0] =>
          match pyRsplitWs memberPart 1 with
          | [_garbage, memberStr0] =>
            let memberStr := pyStrip "<@!>" memberStr0
            match alookup memberStr mention_map with
            | none => .crash
            | some memberId =>
              let commandHead := pyStripWs commandHead0
              if pyStartsWith "collect" commandHead then
                if ¬ (hiv.2.1 = "remove" ∧ hiv.2.2 = "all") then
                  match pySplitWsN commandHead 1 with
                  | [_g, command] =>
                    .record .collectors memberId none hiv.2.1 hiv.2.2 command
                  | _ => .crash
                else .record .collectors memberId none hiv.2.1 hiv.2.2 ""
              else if pyStartsWith "drop" commandHead then
                match pySplitWsN commandHead 3 with
                | [_cmd, collectorStr0, countStr] =>
                  let collectorStr := pyStrip "<@!>" collectorStr0
                  match alookup collectorStr mention_map with
                  | none => .crash
                  | some collectorId =>
                    .record .dropboxes memberId (some collectorId) hiv.2.1 hiv.2.2
                      ("count " ++ countStr)
                | _ => .crash
              else .record .makers memberId none hiv.2.1 hiv.2.2 commandHead
          | _ => .crash
        | _ => .crash
      | _ => .crash
    else .ignore

/-- The three per-role bootstraps of the replay walk: folded actions and the
parsed sync-point tables. -/
structure BootState where
  makersLA : LastAction
  collectorsLA : LastAction
  dropboxesLA : LastAction
  makersSync : List SyncRow
  collectorsSync : List SyncRow
  dropboxesSync : List SyncRow
deriving DecidableEq, Repr

def initBootState : BootState := ⟨[], [], [], [], [], []⟩

def BootState.getLA (st : BootState) : Role → LastAction
  | .makers => st.makersLA
  | .collectors => st.collectorsLA
  | .dropboxes => st.dropboxesLA

def BootState.setLA (st : BootState) : Role → LastAction → BootState
  | .makers, la => { st with makersLA := la }
  | .collectors, la => { st with collectorsLA := la }
  | .dropboxes, la => { st with dropboxesLA := la }

/-- Reading the sync point stops the walk (`break`, line 493); a decode
failure inside `pd.read_csv` raises and aborts the rebuild. -/
def applySyncPoint (st : BootState) (now : Nat) (csvText : String) :
    Option BootState :=
  match decodeCheckpoint now csvText with
  | none => none
  | some (a, b, c) =>
    some { st with makersSync := a, collectorsSync := b, dropboxesSync := c }

/-- The replay walk over the reverse-chronological message stream
(lines 456-529): decode each entry; skip ignored and diagnostically-skipped
entries; stop at a sync point; fold records into the role's `last_action`
map; `none` models an unhandled exception aborting the walk. -/
def replayWalk (msgs : List Msg) (now : Nat) (st : BootState) : Option BootState :=
  match msgs with
  | [] => some st
  | m :: rest =>
    match decodeLogEntry m with
    | .ignore => replayWalk rest now st
    | .syncSkip => replayWalk rest now st
    | .crash => none
    | .syncPoint csv => applySyncPoint st now csv
    | .record role memberId coll item variant command =>
      match _process_one_trans_record memberId coll (st.getLA role) item variant
          command m.createdAt with
      | none => none
      | some la => replayWalk rest now (st.setLA role la)

/-! ## Theorems -/

theorem alookup_append {α β : Type} [DecidableEq α] (k : α) (l₁ l₂ : List (α × β)) :
    alookup k (l₁ ++ l₂) =
      match alookup k l₁ with
      | some v => some v
      | none => alookup k l₂ := by
  induction l₁ with
  | nil => simp [alookup]
  | cons hd tl ih =>
    obtain ⟨k', v⟩ := hd
    by_cases h : k' = k <;> simp [alookup, h, ih]

theorem natToDigits_fuel (f₁ : Nat) : ∀ f₂ n : Nat, n ≤ f₁ → n ≤ f₂ →
    natToDigits f₁ n = natToDigits f₂ n := by
  induction f₁ using Nat.strong_induction_on with
  | _ f₁ ih =>
    intro f₂ n h₁ h₂
    cases f₁ with
    | zero =>
      interval_cases n
      cases f₂ <;> simp [natToDigits]
    | succ g =>
      cases f₂ with
      | zero =>
        interval_cases n
        simp [natToDigits]
      | succ g₂ =>
        by_cases hn : n = 0
        · simp [natToDigits, hn]
        · simp only [natToDigits, if_neg hn]
          congr 1
          exact ih g (by omega) g₂ (n / 10) (by omega) (by omega)

/-- The defining unfolding of `natDigitsLE`. -/
theorem natDigitsLE_eq (n : Nat) :
    natDigitsLE n = if n = 0 then [] else Nat.digitChar (n % 10) :: natDigitsLE (n / 10) := by
  rw [natDigitsLE]
  cases hn : n with
  | zero => simp [natToDigits]
  | succ m =>
    simp only [natToDigits, if_neg (Nat.succ_ne_zero m)]
    congr 1
    exact natToDigits_fuel m ((m + 1) / 10) ((m + 1) / 10) (by omega) (by omega)

theorem digitChar_isDigit {d : Nat} (h : d < 10) : (Nat.digitChar d).isDigit = true := by
  interval_cases d <;> decide

theorem natDigitsLE_digits (n : Nat) : ∀ c ∈ natDigitsLE n, c.isDigit = true := by
  induction n using Nat.strong_induction_on with
  | _ n ih =>
    intro c hc
    rw [natDigitsLE_eq] at hc
    by_cases h : n = 0
    · simp [h] at hc
    · simp only [if_neg h, List.mem_cons] at hc
      rcases hc with hc | hc
      · subst hc; exact digitChar_isDigit (Nat.mod_lt _ (by decide))
      · exact ih (n / 10) (Nat.div_lt_self (Nat.pos_of_ne_zero h) (by decide)) c hc

theorem natRepr_digits (n : Nat) : ∀ c ∈ (natRepr n).data, c.isDigit = true := by
  intro c hc
  rw [natRepr] at hc
  by_cases h : n = 0
  · rw [if_pos h] at hc
    have : c = '0' := by simpa using hc
    subst this; decide
  · rw [if_neg h] at hc
    exact natDigitsLE_digits n c (List.mem_reverse.mp hc)

theorem natRepr_ne_nil (n : Nat) : (natRepr n).data ≠ [] := by
  rw [natRepr]
  by_cases h : n = 0
  · rw [if_pos h]; decide
  · rw [if_neg h]
    show (natDigitsLE n).reverse ≠ []
    simp only [ne_eq, List.reverse_eq_nil_iff]
    rw [natDigitsLE_eq]
    simp [h]

/-- The accumulator form of decimal parsing, for the round-trip proof. -/
theorem foldl_digits_append (l₁ l₂ : List Char) (a : Nat) :
    (l₁ ++ l₂).foldl (fun n c => n * 10 + digitVal c) a =
      l₂.foldl (fun n c => n * 10 + digitVal c) (l₁.foldl (fun n c => n * 10 + digitVal c) a) := by
  simp [List.foldl_append]

theorem digitVal_digitChar {d : Nat} (h : d < 10) : digitVal (Nat.digitChar d) = d := by
  interval_cases d <;> decide

theorem natDigitsLE_foldl (n : Nat) :
    ∀ a : Nat, (natDigitsLE n).reverse.foldl (fun m c => m * 10 + digitVal c) a =
      a * 10 ^ (natDigitsLE n).length + n := by
  induction n using Nat.strong_induction_on with
  | _ n ih =>
    intro a
    rw [natDigitsLE_eq]
    by_cases h : n = 0
    · simp [h]
    · simp only [if_neg h, List.reverse_cons, List.length_cons]
      rw [foldl_digits_append]
      have hrec := ih (n / 10) (Nat.div_lt_self (Nat.pos_of_ne_zero h) (by decide)) a
      rw [hrec]
      simp only [List.foldl_cons, List.foldl_nil]
      rw [digitVal_digitChar (Nat.mod_lt _ (by decide))]
      have hdm : n / 10 * 10 + n % 10 = n := Nat.div_add_mod' n 10
      calc (a * 10 ^ (natDigitsLE (n / 10)).length + n / 10) * 10 + n % 10
          = a * (10 ^ (natDigitsLE (n / 10)).length * 10) + (n / 10 * 10 + n % 10) := by
            ring
        _ = a * 10 ^ ((natDigitsLE (n / 10)).length + 1) + n := by rw [hdm, pow_succ]

/-- Decimal round-trip: parsing the rendering of a natural number returns it.
This is the fact that makes counts and user ids survive the log and the
checkpoint CSV format. -/
theorem natParse_natRepr (n : Nat) : natParse? (natRepr n) = some n := by
  rw [natParse?]
  rw [if_pos]
  · congr 1
    by_cases h : n = 0
    · simp [h, natRepr, digitVal]
    · show (natRepr n).data.foldl (fun m c => m * 10 + digitVal c) 0 = n
      have : (natRepr n).data = (natDigitsLE n).reverse := by
        rw [natRepr, if_neg h]
      rw [this, natDigitsLE_foldl n 0]
      simp
  · constructor
    · exact natRepr_ne_nil n
    · rw [List.all_eq_true]
      intro c hc
      exact natRepr_digits n c hc

theorem natRepr_head_digit (n : Nat) :
    ∀ c, (natRepr n).data.head? = some c → c.isDigit = true := by
  intro c hc
  cases h : (natRepr n).data with
  | nil => rw [h] at hc; exact absurd hc (by simp)
  | cons a l =>
    rw [h] at hc
    have hac : a = c := by simpa using hc
    apply natRepr_digits n
    rw [h, hac]
    exact List.mem_cons_self _ _

/-- Integer round-trip. -/
theorem intParse_intRepr (i : Int) : intParse? (intRepr i) = some i := by
  rw [intRepr, intParse?]
  by_cases h : i < 0
  · rw [if_pos h]
    have hdata : ("-" ++ natRepr i.natAbs).data = '-' :: (natRepr i.natAbs).data := by
      rw [String.data_append]
      rfl
    rw [hdata]
    simp only [List.head?_cons, List.tail_cons, if_pos]
    have hmk : String.mk (natRepr i.natAbs).data = natRepr i.natAbs := rfl
    rw [hmk, natParse_natRepr]
    simp only [Option.map_some']
    congr 1
    rw [Int.ofNat_eq_natCast, Int.natCast_natAbs, abs_of_neg h]
    ring
  · rw [if_neg h]
    have hneg : ¬ (natRepr i.natAbs).data.head? = some '-' := by
      intro hcontra
      have hdig : Char.isDigit '-' = true := natRepr_head_digit i.natAbs '-' hcontra
      exact absurd hdig (by decide)
    rw [if_neg hneg, natParse_natRepr]
    simp only [Option.map_some']
    congr 1
    rw [Int.ofNat_eq_natCast, Int.natCast_natAbs]
    exact abs_of_nonneg (by omega)

/-- The catalog of all (item, variant) combinations, evaluated. -/
theorem ALL_ITEM_VARIANT_COMBOS_eq :
    ALL_ITEM_VARIANT_COMBOS =
      [("prusa", "PETG"), ("prusa", "PLA"),
       ("verkstan", "PETG"), ("verkstan", "PLA"),
       ("visor", "prusa"), ("visor", "verkstan"),
       ("earsaver", " ")] := by
  decide

theorem chronLastWins_append (l : List TransRecord) (r : TransRecord) :
    chronLastWins (l ++ [r]) =
      match recAction r with
      | some a => some a
      | none => chronLastWins l := by
  simp [chronLastWins, List.foldl_append]

/-- Processing a record whose key is already present leaves the map
unchanged (the record is superseded), for both personal 3-tuple and dropbox
4-tuple keys. -/
theorem process_superseded (r : TransRecord) (la : LastAction) (k : TransKey)
    (hk : recKey r = k) (hpresent : (alookup k la).isSome) :
    _process_one_trans_record r.memberId r.collector la r.item r.variant
      r.command r.update_time = some la := by
  rw [_process_one_trans_record.eq_def]
  rw [recKey] at hk
  cases hcol : r.collector with
  | none =>
    rw [hcol] at hk
    simp only [] at hk
    simp only []
    rw [hk, if_pos hpresent]
  | some c =>
    rw [hcol] at hk
    simp only [] at hk
    simp only []
    rw [hk, if_pos hpresent]

/-- Processing a record for an absent, non-sentinel key appends its decoded
action at the end of the map, under the record's own key — personal or
dropbox. -/
theorem process_fresh (r : TransRecord) (la : LastAction) (k : TransKey)
    (a : TransLogAction) (hk : recKey r = k)
    (hsent : ¬(r.item = "remove" ∧ r.variant = "all"))
    (habsent : alookup k la = none)
    (hdec : recAction r = some a) :
    _process_one_trans_record r.memberId r.collector la r.item r.variant
      r.command r.update_time = some (la ++ [(k, a)]) := by
  rw [_process_one_trans_record.eq_def]
  rw [recKey] at hk
  rw [recAction] at hdec
  cases hcol : r.collector with
  | none =>
    rw [hcol] at hk
    simp only [] at hk
    simp only []
    rw [hk]
    rw [if_neg (by rw [habsent]; simp), if_neg hsent]
    by_cases hrem : pyStartsWith "remove" r.command = true
    · rw [if_pos hrem]
      rw [if_pos hrem] at hdec
      simp only [Option.some.injEq] at hdec
      rw [hdec]
    · rw [if_neg hrem]
      rw [if_neg hrem] at hdec
      by_cases hcnt : pyStartsWith "count" r.command = true
      · rw [if_pos hcnt]
        rw [if_pos hcnt] at hdec
        cases hp : (pySplitWs r.command)[1]? with
        | none => rw [hp] at hdec; simp at hdec
        | some cstr =>
          rw [hp] at hdec
          simp only [] at hdec ⊢
          cases hn : intParse? cstr with
          | none => rw [hn] at hdec; simp at hdec
          | some n =>
            rw [hn] at hdec
            simp only [hn, Option.map_some', Option.some.injEq] at hdec ⊢
            rw [hdec]
      · rw [if_neg hcnt] at hdec
        exact absurd hdec (by simp)
  | some c =>
    rw [hcol] at hk
    simp only [] at hk
    simp only []
    rw [hk]
    rw [if_neg (by rw [habsent]; simp), if_neg hsent]
    by_cases hrem : pyStartsWith "remove" r.command = true
    · rw [if_pos hrem]
      rw [if_pos hrem] at hdec
      simp only [Option.some.injEq] at hdec
      rw [hdec]
    · rw [if_neg hrem]
      rw [if_neg hrem] at hdec
      by_cases hcnt : pyStartsWith "count" r.command = true
      · rw [if_pos hcnt]
        rw [if_pos hcnt] at hdec
        cases hp : (pySplitWs r.command)[1]? with
        | none => rw [hp] at hdec; simp at hdec
        | some cstr =>
          rw [hp] at hdec
          simp only [] at hdec ⊢
          cases hn : intParse? cstr with
          | none => rw [hn] at hdec; simp at hdec
          | some n =>
            rw [hn] at hdec
            simp only [hn, Option.map_some', Option.some.injEq] at hdec ⊢
            rw [hdec]
      · rw [if_neg hcnt] at hdec
        exact absurd hdec (by simp)

/-- After a key is present, any further walk over records for that same key
leaves the map unchanged. -/
theorem processRecords_all_superseded (recs : List TransRecord) (k : TransKey)
    (hkey : ∀ r ∈ recs, recKey r = k) :
    ∀ la : LastAction, (alookup k la).isSome →
      processRecords recs la = some la := by
  induction recs with
  | nil => intro la _; rfl
  | cons r rest ih =>
    intro la hla
    rw [processRecords, process_superseded r la k (hkey r (List.mem_cons_self _ _)) hla]
    exact ih (fun r hr => hkey r (List.mem_cons_of_mem _ hr)) la hla

/-- Looking a key up after the `remove all` fan-out loop: a combination that
was absent maps to the deleted entry, a present one keeps its old action. -/
theorem fanout_alookup (u : Nat) (t : Nat) (combos : List (String × String)) (i v : String) :
    ∀ la : LastAction,
      alookup (TransKey.p u i v)
        (combos.foldl (fun la combo =>
          if (alookup (TransKey.p u combo.1 combo.2) la).isSome then la
          else la ++ [(TransKey.p u combo.1 combo.2, ⟨none, t⟩)]) la) =
      (if (i, v) ∈ combos ∧ alookup (TransKey.p u i v) la = none
       then some ⟨none, t⟩ else alookup (TransKey.p u i v) la) := by
  induction combos with
  | nil => intro la; simp
  | cons c rest ih =>
    obtain ⟨c1, c2⟩ := c
    intro la
    simp only [List.foldl_cons]
    by_cases hc : (alookup (TransKey.p u c1 c2) la).isSome
    · rw [if_pos hc, ih la]
      by_cases hciv : (i, v) = (c1, c2)
      · have hkeq : TransKey.p u c1 c2 = TransKey.p u i v := by
          obtain ⟨h1, h2⟩ := Prod.mk.injEq i v c1 c2 ▸ hciv
          rw [h1, h2]
        rw [hkeq] at hc
        have hnone : ¬ alookup (TransKey.p u i v) la = none := by
          intro hcontra; rw [hcontra] at hc; simp at hc
        rw [if_neg (fun hcontra => hnone hcontra.2),
            if_neg (fun hcontra => hnone hcontra.2)]
      · have hmem : (i, v) ∈ (c1, c2) :: rest ↔ (i, v) ∈ rest := by
          simp [List.mem_cons, hciv]
        by_cases hmr : (i, v) ∈ rest ∧ alookup (TransKey.p u i v) la = none
        · rw [if_pos hmr, if_pos ⟨hmem.mpr hmr.1, hmr.2⟩]
        · rw [if_neg hmr, if_neg (fun hcontra => hmr ⟨hmem.mp hcontra.1, hcontra.2⟩)]
    · rw [if_neg hc, ih _]
      have hcla : alookup (TransKey.p u c1 c2) la = none := by
        cases h : alookup (TransKey.p u c1 c2) la with
        | none => rfl
        | some w => rw [h] at hc; simp at hc
      by_cases hciv : (i, v) = (c1, c2)
      · have h1 : i = c1 := congrArg Prod.fst hciv
        have h2 : v = c2 := congrArg Prod.snd hciv
        subst h1 h2
        have hla2 : alookup (TransKey.p u i v)
            (la ++ [(TransKey.p u i v, (⟨none, t⟩ : TransLogAction))]) = some ⟨none, t⟩ := by
          rw [alookup_append, hcla]
          simp [alookup]
        rw [hla2]
        rw [if_neg (fun hcontra => absurd hcontra.2 (by simp))]
        rw [if_pos ⟨List.mem_cons_self _ _, hcla⟩]
      · have hkne : TransKey.p u c1 c2 ≠ TransKey.p u i v := by
          intro hcontra
          injection hcontra with h0 h1 h2
          exact hciv (by rw [h1, h2])
        have hla2 : alookup (TransKey.p u i v)
            (la ++ [(TransKey.p u c1 c2, (⟨none, t⟩ : TransLogAction))]) =
              alookup (TransKey.p u i v) la := by
          rw [alookup_append]
          cases h : alookup (TransKey.p u i v) la with
          | some w => rfl
          | none => simp [alookup, hkne]
        rw [hla2]
        have hmem : (i, v) ∈ (c1, c2) :: rest ↔ (i, v) ∈ rest := by
          simp [List.mem_cons, hciv]
        by_cases hmr : (i, v) ∈ rest ∧ alookup (TransKey.p u i v) la = none
        · rw [if_pos hmr, if_pos ⟨hmem.mpr hmr.1, hmr.2⟩]
        · rw [if_neg hmr, if_neg (fun hcontra => hmr ⟨hmem.mp hcontra.1, hcontra.2⟩)]

/-- **C1**: For every sequence of decoded Actions on the same primary key —
a personal 3-tuple or a dropbox 4-tuple key alike — walked newest-to-oldest
as the log history is delivered, the replay fold keeps the first Action seen
for the key and discards every later-seen (older) one as superseded, so the
fold equals applying the actions in chronological order with the last one
winning. -/
theorem C1_fold_last_writer_wins (recs : List TransRecord) (k : TransKey)
    (hkey : ∀ r ∈ recs, recKey r = k)
    (hsent : ∀ r ∈ recs, ¬(r.item = "remove" ∧ r.variant = "all"))
    (hdec : ∀ r ∈ recs, (recAction r).isSome) :
    (replayFold recs).map (alookup k) = some (chronLastWins recs.reverse) := by
  cases recs with
  | nil => simp [replayFold, processRecords, chronLastWins, alookup]
  | cons r rest =>
    obtain ⟨a, ha⟩ := Option.isSome_iff_exists.mp (hdec r (List.mem_cons_self _ _))
    rw [replayFold, processRecords,
        process_fresh r [] k a (hkey r (List.mem_cons_self _ _))
          (hsent r (List.mem_cons_self _ _)) rfl ha]
    simp only []
    have hpresent : (alookup k ([] ++ [(k, a)])).isSome := by
      simp [alookup]
    rw [processRecords_all_superseded rest k
        (fun r hr => hkey r (List.mem_cons_of_mem _ hr)) _ hpresent]
    rw [List.reverse_cons, chronLastWins_append, ha]
    simp [alookup]

/-- Witness for C1 at concrete inputs: two count records for the same key,
newest first, once under a personal 3-tuple key and once under a dropbox
4-tuple key; the fold keeps the newest (chronologically last) count. -/
theorem C1_fold_last_writer_wins_witness :
    (replayFold
        [⟨5, none, "prusa", "PETG", "count 7", 30⟩,
         ⟨5, none, "prusa", "PETG", "count 3", 20⟩]).map
      (alookup (TransKey.p 5 "prusa" "PETG")) = some (some ⟨some 7, 30⟩) ∧
    (replayFold
        [⟨5, some 2, "prusa", "PETG", "count 7", 30⟩,
         ⟨5, some 2, "prusa", "PETG", "count 3", 20⟩]).map
      (alookup (TransKey.t 5 2 "prusa" "PETG")) = some (some ⟨some 7, 30⟩) := by
  constructor
  · have h := C1_fold_last_writer_wins
      [⟨5, none, "prusa", "PETG", "count 7", 30⟩,
       ⟨5, none, "prusa", "PETG", "count 3", 20⟩]
      (TransKey.p 5 "prusa" "PETG") (by decide) (by decide) (by decide)
    exact h.trans (by decide)
  · have h := C1_fold_last_writer_wins
      [⟨5, some 2, "prusa", "PETG", "count 7", 30⟩,
       ⟨5, some 2, "prusa", "PETG", "count 3", 20⟩]
      (TransKey.t 5 2 "prusa" "PETG") (by decide) (by decide) (by decide)
    exact h.trans (by decide)

/-- **C7**: During replay, a `remove all` action for an actor fans out into
one deleted (null-count) folded entry for every (item, variant) combination
of the static catalog for that actor; a combination already superseded by a
more recent action for that key keeps its existing folded action. -/
theorem C7_removeAll_fanout (u : Nat) (la : LastAction) (t : Nat) (cmd : String)
    (habs : alookup (TransKey.p u "remove" "all") la = none) :
    ∀ iv ∈ ALL_ITEM_VARIANT_COMBOS,
      (_process_one_trans_record u none la "remove" "all" cmd t).map
          (alookup (TransKey.p u iv.1 iv.2)) =
        some (if alookup (TransKey.p u iv.1 iv.2) la = none
              then some ⟨none, t⟩
              else alookup (TransKey.p u iv.1 iv.2) la) := by
  intro iv hiv
  rw [_process_one_trans_record.eq_def]
  simp only []
  rw [if_neg (by rw [habs]; simp), if_pos (⟨trivial, trivial⟩ : True ∧ True)]
  rw [Option.map_some']
  rw [fanout_alookup u t ALL_ITEM_VARIANT_COMBOS iv.1 iv.2 la]
  congr 1
  by_cases habs2 : alookup (TransKey.p u iv.1 iv.2) la = none
  · rw [if_pos habs2, if_pos ⟨by rw [Prod.mk.eta]; exact hiv, habs2⟩]
  · rw [if_neg habs2, if_neg (fun hcontra => habs2 hcontra.2)]

/-- Witness for C7 at a concrete input: a `remove all` for actor 7, with one
already-superseded combination; that combination keeps its folded count, a
fresh one gets the deleted entry. -/
theorem C7_removeAll_fanout_witness :
    ((_process_one_trans_record 7 none [(TransKey.p 7 "prusa" "PETG", ⟨some 5, 1⟩)]
          "remove" "all" "" 9).map (alookup (TransKey.p 7 "visor" "prusa")) =
        some (some ⟨none, 9⟩)) ∧
    ((_process_one_trans_record 7 none [(TransKey.p 7 "prusa" "PETG", ⟨some 5, 1⟩)]
          "remove" "all" "" 9).map (alookup (TransKey.p 7 "prusa" "PETG")) =
        some (some ⟨some 5, 1⟩)) := by
  constructor
  · have h := C7_removeAll_fanout 7 [(TransKey.p 7 "prusa" "PETG", ⟨some 5, 1⟩)] 9 ""
      (by decide) ("visor", "prusa") (by decide)
    exact h.trans (by decide)
  · have h := C7_removeAll_fanout 7 [(TransKey.p 7 "prusa" "PETG", ⟨some 5, 1⟩)] 9 ""
      (by decide) ("prusa", "PETG") (by decide)
    exact h.trans (by decide)

/-- `countCore` only proceeds with a non-negative resulting count: a negative
result is rejected before the dry-run/commit split. -/
theorem countCore_proceed_nonneg (df : PDf) (u : Nat) (total : Option Int)
    (i? v? : Option String) (d : Bool) (role : Role) (n : Int) (i v : String) (cur : Int)
    (h : countCore df u total i? v? d role = .proceed n i v cur) : 0 ≤ n := by
  simp only [countCore] at h
  repeat' split at h
  all_goals cases h
  all_goals simp_all

/-- What a committed `_count` did: the committed total is the `countCore`
result, and the dataframe is exactly the upsert of that row. -/
theorem _count_committed (df : PDf) (u : Nat) (total : Option Int)
    (i? v? : Option String) (d : Bool) (role : Role) (trial ok : Bool) (now : Nat)
    (n : Int) (i v : String)
    (h : (_count df u total i? v? d role trial ok now).1 = .committed n i v) :
    0 ≤ n ∧ (_count df u total i? v? d role trial ok now).2.1 = pUpsert df u i v n now := by
  rw [_count.eq_def] at h ⊢
  cases hc : countCore df u total i? v? d role with
  | showInventory => rw [hc] at h; simp at h
  | helpNoRecords => rw [hc] at h; simp at h
  | reject r => rw [hc] at h; simp at h
  | proceed t it vr cur =>
    rw [hc] at h
    cases trial with
    | true => simp at h
    | false =>
      cases ok with
      | false => simp at h
      | true =>
        simp at h
        obtain ⟨h1, h2, h3⟩ := h
        subst h1 h2 h3
        refine ⟨countCore_proceed_nonneg df u total i? v? d role t it vr cur hc, ?_⟩
        simp

/-- Upserting a non-negative count preserves table non-negativity. -/
theorem pUpsert_nonneg (df : PDf) (u : Nat) (i v : String) (c : Int) (t : Nat)
    (hdf : nonnegDf df) (hc : 0 ≤ c) : nonnegDf (pUpsert df u i v c t) := by
  intro r hr
  rw [pUpsert] at hr
  split at hr
  · rw [List.mem_map] at hr
    obtain ⟨r', hr', heq⟩ := hr
    by_cases hk : r'.user_id = u ∧ r'.item = i ∧ r'.variant = v
    · rw [if_pos hk] at heq; rw [← heq]; exact hc
    · rw [if_neg hk] at heq; rw [← heq]; exact hdf r' hr'
  · rw [List.mem_append] at hr
    rcases hr with hr | hr
    · exact hdf r hr
    · have : r = ⟨u, i, v, c, t⟩ := by simpa using hr
      rw [this]; exact hc

/-- Filtering preserves table non-negativity. -/
theorem filter_nonneg (df : PDf) (p : PRow → Bool) (hdf : nonnegDf df) :
    nonnegDf (df.filter p) :=
  fun r hr => hdf r (List.mem_of_mem_filter hr)

/-- The dataframe after any `_count` invocation: unchanged, or the upsert of
a non-negative count. -/
theorem _count_df_cases (df : PDf) (u : Nat) (total : Option Int)
    (i? v? : Option String) (d : Bool) (role : Role) (trial ok : Bool) (now : Nat) :
    (_count df u total i? v? d role trial ok now).2.1 = df ∨
    ∃ n i v, 0 ≤ n ∧
      (_count df u total i? v? d role trial ok now).2.1 = pUpsert df u i v n now := by
  rw [_count.eq_def]
  cases hc : countCore df u total i? v? d role with
  | showInventory => left; rfl
  | helpNoRecords => left; rfl
  | reject r => left; rfl
  | proceed t it vr cur =>
    cases trial with
    | true => left; rfl
    | false =>
      cases ok with
      | false => left; rfl
      | true =>
        right
        exact ⟨t, it, vr, countCore_proceed_nonneg df u total i? v? d role t it vr cur hc,
          by simp⟩

/-- The dataframe after any `_remove` invocation: unchanged or a filter. -/
theorem _remove_df_cases (df : PDf) (u : Nat) (i? v? : Option String)
    (role : Role) (ok : Bool) (now : Nat) :
    (_remove df u i? v? role ok now).2.1 = df ∨
    ∃ p : PRow → Bool, (_remove df u i? v? role ok now).2.1 = df.filter p := by
  simp only [_remove]
  repeat' split
  all_goals first
    | (left; rfl)
    | (right; exact ⟨_, rfl⟩)

/-- The narrowing stage of `_remove` never reports a successful removal:
its error outcomes are only the no-items, ambiguity and internal-error
responses. -/
theorem removeNarrow_error (df : PDf) (u : Nat) (i? v? : Option String)
    (res : RemoveResult) (h : removeNarrow df u i? v? = .error res) :
    (∀ i v, res ≠ .removed i v) ∧ res ≠ .removedAll ∧ res ≠ .sendFailed := by
  simp only [removeNarrow] at h
  repeat' split at h
  all_goals cases h
  all_goals simp

/-- **C5**: Invoking the write path with `dryRun = true` and then with
`dryRun = false` and identical arguments against the same state either both
succeed with the same resolved (count, item, variant) triple or both fail
with the same rejection reason — the validation logic is identical in both
modes (assuming the log append itself succeeds on the commit run). -/
theorem C5_dry_run_parity (df : PDf) (userId : Nat) (total : Option Int)
    (item? variant? : Option String) (delta : Bool) (role : Role) (now : Nat) :
    (∀ n i v,
      (_count df userId total item? variant? delta role true true now).1 = .trial n i v ↔
      (_count df userId total item? variant? delta role false true now).1 = .committed n i v) ∧
    (∀ r,
      (_count df userId total item? variant? delta role true true now).1 = .rejected r ↔
      (_count df userId total item? variant? delta role false true now).1 = .rejected r) := by
  cases h : countCore df userId total item? variant? delta role <;>
    simp [_count, h]

/-- Witness for C5 at a concrete input: dry run resolves (5, prusa, PETG),
and the commit run commits exactly that triple, obtained through the parity
theorem. -/

theorem C5_dry_run_parity_witness :
    (_count [⟨1, "prusa", "PETG", 20, 0⟩] 1 (some 5) none none false .makers
        true true 9).1 = .trial 5 "prusa" "PETG" ∧
    (_count [⟨1, "prusa", "PETG", 20, 0⟩] 1 (some 5) none none false .makers
        false true 9).1 = .committed 5 "prusa" "PETG" :=
  ⟨by decide,
   ((C5_dry_run_parity [⟨1, "prusa", "PETG", 20, 0⟩] 1 (some 5) none none false
      .makers 9).1 5 "prusa" "PETG").mp (by decide)⟩

/-- **C3**: For every non-dry-run mutation command, the Action is posted to
the external log strictly before the in-memory table is mutated (the event
trace is either empty with the table unchanged, or exactly a post followed by
the mutation), and if the log append raises, the in-memory state is left
completely unchanged and the command fails entirely — for `_count`
(count/add/reset) and `_remove` alike. -/
theorem C3_log_append_before_mutation :
    (∀ df userId total item? variant? delta role now,
      (_count df userId total item? variant? delta role false false now).2.1 = df ∧
      (_count df userId total item? variant? delta role false false now).2.2 = [] ∧
      ∀ n i v,
        (_count df userId total item? variant? delta role false false now).1 ≠
          .committed n i v) ∧
    (∀ df userId total item? variant? delta role now appendOk,
      ((_count df userId total item? variant? delta role false appendOk now).2.2 = [] ∧
        (_count df userId total item? variant? delta role false appendOk now).2.1 = df) ∨
      (∃ e n i v,
        (_count df userId total item? variant? delta role false appendOk now).2.2 =
          [Event.post e, Event.mutate role] ∧
        (_count df userId total item? variant? delta role false appendOk now).1 =
          .committed n i v)) ∧
    (∀ df userId item? variant? role now,
      (_remove df userId item? variant? role false now).2.1 = df ∧
      (_remove df userId item? variant? role false now).2.2 = [] ∧
      (∀ i v, (_remove df userId item? variant? role false now).1 ≠ .removed i v) ∧
      (_remove df userId item? variant? role false now).1 ≠ .removedAll) ∧
    (∀ df userId item? variant? role now appendOk,
      ((_remove df userId item? variant? role appendOk now).2.2 = [] ∧
        (_remove df userId item? variant? role appendOk now).2.1 = df) ∨
      (∃ e, (_remove df userId item? variant? role appendOk now).2.2 =
        [Event.post e, Event.mutate role])) := by
  refine ⟨?_, ?_, ?_, ?_⟩
  · intro df userId total item? variant? delta role now
    cases h : countCore df userId total item? variant? delta role <;>
      simp [_count, h]
  · intro df userId total item? variant? delta role now appendOk
    cases h : countCore df userId total item? variant? delta role <;>
      [skip; skip; skip; cases appendOk] <;> simp [_count, h]
  · intro df userId item? variant? role now
    simp only [_remove]
    split
    · simp
    · split
      · simp
      · split
        · next res heq =>
          obtain ⟨h1, h2, _⟩ := removeNarrow_error df userId item? variant? res heq
          simp [h1, h2]
        · repeat' split
          all_goals simp_all
  · intro df userId item? variant? role now appendOk
    simp only [_remove]
    repeat' split
    all_goals simp

/-- Witness for C3 at a concrete input: a failing log append leaves the
table unchanged with no events, obtained through the theorem. -/
theorem C3_log_append_before_mutation_witness :
    (_count [⟨1, "prusa", "PETG", 20, 0⟩] 1 (some 5) none none false .makers
        false false 9).2.1 = [⟨1, "prusa", "PETG", 20, 0⟩] ∧
    (_count [⟨1, "prusa", "PETG", 20, 0⟩] 1 (some 5) none none false .makers
        false false 9).2.2 = [] :=
  ⟨(C3_log_append_before_mutation.1 [⟨1, "prusa", "PETG", 20, 0⟩] 1 (some 5)
      none none false .makers 9).1,
   (C3_log_append_before_mutation.1 [⟨1, "prusa", "PETG", 20, 0⟩] 1 (some 5)
      none none false .makers 9).2.1⟩

/-- **C6**: For the maker and collector roles, no sequence of commands can
produce a stored row with a negative count: commits always carry a
non-negative resolved count, a rejected command (in particular the
`negative` rejection) leaves the table unchanged, and non-negativity of the
whole table is preserved by every command sequence. -/
theorem C6_nonnegativity :
    (∀ role df cmds, nonnegDf df → nonnegDf (applyCmds role df cmds)) ∧
    (∀ df u total i? v? d role trial ok now n i v,
      (_count df u total i? v? d role trial ok now).1 = .committed n i v → 0 ≤ n) ∧
    (∀ df u total i? v? d role ok now r,
      (_count df u total i? v? d role false ok now).1 = .rejected r →
        (_count df u total i? v? d role false ok now).2.1 = df ∧
        (_count df u total i? v? d role false ok now).2.2 = []) := by
  refine ⟨?_, ?_, ?_⟩
  · intro role df cmds
    induction cmds generalizing df with
    | nil => intro h; exact h
    | cons cmd rest ih =>
      intro hdf
      rw [applyCmds, List.foldl_cons]
      apply ih
      cases cmd with
      | countC u t i v d ok now =>
        show nonnegDf (_count df u t i v d role false ok now).2.1
        rcases _count_df_cases df u t i v d role false ok now with h | ⟨n, it, vr, hn, h⟩
        · rw [h]; exact hdf
        · rw [h]; exact pUpsert_nonneg df u it vr n now hdf hn
      | removeC u i v ok now =>
        show nonnegDf (_remove df u i v role ok now).2.1
        rcases _remove_df_cases df u i v role ok now with h | ⟨p, h⟩
        · rw [h]; exact hdf
        · rw [h]; exact filter_nonneg df p hdf
  · intro df u total i? v? d role trial ok now n i v h
    exact (_count_committed df u total i? v? d role trial ok now n i v h).1
  · intro df u total i? v? d role ok now r h
    cases hc : countCore df u total i? v? d role <;>
      [skip; skip; skip; cases ok] <;> simp [_count, hc] at h ⊢

/-- Witness for C6 at a concrete input: after a sequence of commands
(a count, an add that is rejected as negative, and a remove) starting from a
non-negative table, the table is still non-negative; the rejected command's
table is unchanged. -/
theorem C6_nonnegativity_witness :
    nonnegDf (applyCmds .makers []
      [.countC 1 (some 20) (some "prusa") (some "PETG") false true 1,
       .countC 1 (some (-25)) none none true true 2,
       .removeC 1 (some "prusa") none true 3]) ∧
    (_count [⟨1, "prusa", "PETG", 20, 1⟩] 1 (some (-25)) none none true .makers
        false true 2).2.1 = [⟨1, "prusa", "PETG", 20, 1⟩] :=
  ⟨C6_nonnegativity.1 .makers []
      [.countC 1 (some 20) (some "prusa") (some "PETG") false true 1,
       .countC 1 (some (-25)) none none true true 2,
       .removeC 1 (some "prusa") none true 3] (by intro r hr; simp at hr),
   ((C6_nonnegativity.2.2 [⟨1, "prusa", "PETG", 20, 1⟩] 1 (some (-25)) none none
      true .makers true 2 .negative) (by decide)).1⟩

theorem rebuildPersonal_actions_eq (la : LastAction) : ∀ init : List PRow,
    la.foldl
      (fun rows kv =>
        match kv with
        | (.p u i v, a) =>
          match a.count with
          | some c => rows ++ [⟨u, i, v, c, a.update_time⟩]
          | none => rows
        | (.t _ _ _ _, _) => rows)
      init
    = init ++ la.filterMap (fun kv =>
        match kv with
        | (.p u i v, a) => a.count.map (fun c => (⟨u, i, v, c, a.update_time⟩ : PRow))
        | _ => none) := by
  induction la with
  | nil => intro init; simp
  | cons kv rest ih =>
    intro init
    obtain ⟨k, a⟩ := kv
    cases k with
    | p u i v =>
      cases hc : a.count with
      | none => simp [List.foldl_cons, List.filterMap_cons, hc, ih]
      | some c => simp [List.foldl_cons, List.filterMap_cons, hc, ih]
    | t m c2 i v => simp [List.foldl_cons, List.filterMap_cons, ih]

theorem rebuildPersonal_sync_eq (la : LastAction) (sync : List SyncRow) :
    ∀ init : List PRow,
      sync.foldl
        (fun rows r =>
          if alookup (TransKey.p r.user_id r.item r.variant) la = none then
            rows ++ [⟨r.user_id, r.item, r.variant, r.count, r.update_time⟩]
          else rows)
        init
      = init ++ ((sync.filter (fun r =>
          decide (alookup (TransKey.p r.user_id r.item r.variant) la = none))).map
        (fun r => (⟨r.user_id, r.item, r.variant, r.count, r.update_time⟩ : PRow))) := by
  induction sync with
  | nil => intro init; simp
  | cons r rest ih =>
    intro init
    by_cases h : alookup (TransKey.p r.user_id r.item r.variant) la = none <;>
      simp [List.foldl_cons, List.filter_cons, h, ih]

theorem rebuildTransaction_actions_eq (la : LastAction) : ∀ init : List TRow,
    la.foldl
      (fun rows kv =>
        match kv with
        | (.t m c i v, a) =>
          match a.count with
          | some n =>
            if n = 0 then rows else rows ++ [⟨m, i, v, c, n, a.update_time⟩]
          | none => rows
        | (.p _ _ _, _) => rows)
      init
    = init ++ la.filterMap (fun kv =>
        match kv with
        | (.t m c i v, a) =>
          match a.count with
          | some n => if n = 0 then none else some ⟨m, i, v, c, n, a.update_time⟩
          | none => none
        | _ => none) := by
  induction la with
  | nil => intro init; simp
  | cons kv rest ih =>
    intro init
    obtain ⟨k, a⟩ := kv
    cases k with
    | p u i v => simp [List.foldl_cons, List.filterMap_cons, ih]
    | t m c2 i v =>
      cases hc : a.count with
      | none => simp [List.foldl_cons, List.filterMap_cons, hc, ih]
      | some n =>
        by_cases hz : n = 0 <;>
          simp [List.foldl_cons, List.filterMap_cons, hc, hz, ih]

theorem rebuildTransaction_sync_eq (la : LastAction) (sync : List SyncRow) :
    ∀ init : List TRow,
      sync.foldl
        (fun rows r =>
          match r.second_user_id with
          | none => rows
          | some s =>
            if alookup (TransKey.t r.user_id s r.item r.variant) la = none ∧
                r.count ≠ 0 then
              rows ++ [⟨r.user_id, r.item, r.variant, s, r.count, r.update_time⟩]
            else rows)
        init
      = init ++ (sync.filterMap (fun r =>
          match r.second_user_id with
          | none => none
          | some s =>
            if alookup (TransKey.t r.user_id s r.item r.variant) la = none ∧
                r.count ≠ 0 then
              some ⟨r.user_id, r.item, r.variant, s, r.count, r.update_time⟩
            else none)) := by
  induction sync with
  | nil => intro init; simp
  | cons r rest ih =>
    intro init
    cases hs : r.second_user_id with
    | none => simp [List.foldl_cons, List.filterMap_cons, hs, ih]
    | some s =>
      by_cases h : alookup (TransKey.t r.user_id s r.item r.variant) la = none ∧
          r.count ≠ 0 <;>
        simp [List.foldl_cons, List.filterMap_cons, hs, h, ih]

/-- **C2**: For every role, the rebuilt table after the walk equals the
union of (a) the folded actions with a non-null resulting count and (b) the
checkpoint rows whose primary key is absent from the folded-action map; for
the dropbox (transaction) role, zero-count rows are excluded from both
parts. -/
theorem C2_rebuild_union (la : LastAction) (sync : List SyncRow) :
    rebuild_inventory_personal la sync = specRebuildPersonal la sync ∧
    rebuild_inventory_transaction la sync = specRebuildTransaction la sync := by
  constructor
  · rw [rebuild_inventory_personal, specRebuildPersonal]
    rw [rebuildPersonal_actions_eq la []]
    rw [rebuildPersonal_sync_eq la sync]
    simp
  · rw [rebuild_inventory_transaction, specRebuildTransaction]
    rw [rebuildTransaction_actions_eq la []]
    rw [rebuildTransaction_sync_eq la sync]
    simp

/-- Every catalog item resolves to itself. -/
theorem resolveItemName_of_ok (x y : String) (h : resolveItemName x = .ok y) :
    resolveItemName y = .ok y := by
  rw [resolveItemName] at h
  cases ha : alookup (pyLower x) ALIAS_MAPS with
  | none => rw [ha] at h; simp at h
  | some name =>
    rw [ha] at h
    simp only [] at h
    by_cases hm : name ∈ ITEM_CHOICES
    · rw [if_pos hm] at h
      have hy : name = y := by simpa using h
      subst hy
      have hmem : name ∈ ITEM_CHOICES := hm
      fin_cases hmem <;> rfl
    · rw [if_neg hm] at h; simp at h

/-- Every catalog variant of a valid item resolves to itself. -/
theorem resolveVariantName_of_ok (i x y : String) (h : resolveVariantName i x = .ok y) :
    resolveVariantName i y = .ok y := by
  rw [resolveVariantName] at h
  cases ha : alookup (pyLower x) ALIAS_MAPS with
  | none => rw [ha] at h; simp at h
  | some name =>
    rw [ha] at h
    simp only [] at h
    by_cases hm : name ∈ (alookup i VARIANT_CHOICES).getD []
    · rw [if_pos hm] at h
      have hy : name = y := by simpa using h
      subst hy
      cases hv : alookup i VARIANT_CHOICES with
      | none => rw [hv] at hm; simp at hm
      | some lst =>
        rw [hv] at hm
        simp only [Option.getD_some] at hm
        have hlst : lst = ["PETG", "PLA"] ∨ lst = ["prusa", "verkstan"] ∨ lst = [" "] := by
          rw [VARIANT_CHOICES] at hv
          simp only [alookup] at hv
          repeat' split at hv
          all_goals try (cases hv)
          all_goals simp_all
        rw [resolveVariantName]
        have halias : alookup (pyLower name) ALIAS_MAPS = some name := by
          rcases hlst with hl | hl | hl <;> (subst hl; fin_cases hm <;> rfl)
        rw [halias]
        simp only [hv, Option.getD_some]
        rw [if_pos hm]
    · rw [if_neg hm] at h; simp at h

/-- A proceeding `countCore` resolved its item and variant to canonical
catalog names, which re-resolve to themselves. -/
theorem countCore_proceed_resolved (df : PDf) (u : Nat) (t : Int)
    (i? v? : Option String) (d : Bool) (role : Role) (n : Int) (i v : String) (cur : Int)
    (h : countCore df u (some t) i? v? d role = .proceed n i v cur) :
    resolveItemName i = .ok i ∧ resolveVariantName i v = .ok v := by
  simp only [countCore] at h
  repeat' split at h
  all_goals cases h
  all_goals exact ⟨resolveItemName_of_ok _ _ (by assumption),
    resolveVariantName_of_ok _ _ _ (by assumption)⟩

set_option maxHeartbeats 1000000 in
/-- A proceeding `countCore` computed its current count from the exact key
rows and its total from the delta rule, and passed the negative check. -/
theorem countCore_proceed_total (df : PDf) (u : Nat) (t : Int)
    (i? v? : Option String) (d : Bool) (role : Role) (n : Int) (i v : String) (cur : Int)
    (h : countCore df u (some t) i? v? d role = .proceed n i v cur) :
    cur = (match df.filter (fun r =>
        decide (r.user_id = u ∧ r.item = i ∧ r.variant = v)) with
      | [row] => row.count
      | _ => 0) ∧
    n = (if d then t + cur else t) ∧ ¬ n < 0 := by
  simp only [countCore] at h
  repeat' split at h
  all_goals cases h
  all_goals refine ⟨?_, ?_, ?_⟩
  all_goals simp_all

/-- Re-running `countCore` with the resolved item and variant of a
proceeding run yields the same resolution (the write path may re-validate
with resolved names without changing the outcome). -/
theorem countCore_resolved_args (df : PDf) (u : Nat) (t : Int)
    (i? v? : Option String) (d : Bool) (role : Role) (n : Int) (i v : String) (cur : Int)
    (h : countCore df u (some t) i? v? d role = .proceed n i v cur) :
    countCore df u (some t) (some i) (some v) d role = .proceed n i v cur := by
  obtain ⟨hri, hrv⟩ := countCore_proceed_resolved df u t i? v? d role n i v cur h
  obtain ⟨hcur, hn, hneg⟩ := countCore_proceed_total df u t i? v? d role n i v cur h
  simp only [countCore]
  rw [if_neg (by simp)]
  try simp only []
  rw [if_neg (by simp)]
  try simp only [Option.getD_some]
  rw [hri]
  simp only []
  rw [hrv]
  simp only []
  rw [← hcur, ← hn]
  rw [if_neg hneg]

/-- Behavior of the drop continuation with a successful log transport:
every non-commit outcome leaves both tables unchanged with a pure
dry-run-validation trace, and a commit's trace is dry-run validations
followed by exactly the maker-debit post and mutation and then the
drop-record post and the dropbox mutation. -/
theorem dropWithNum_spec (mdf cdf : PDf) (ddf : TDf) (mk coll : Nat) (num : Int)
    (ev0 : List Event) (i? v? : Option String) (isC : Bool) (now : Nat)
    (hev0 : ev0.all isValidation = true) :
    ((∀ new i v,
        (dropWithNum mdf cdf ddf mk coll num ev0 i? v? isC true now).1 ≠
          .dropCommitted new i v) →
      (dropWithNum mdf cdf ddf mk coll num ev0 i? v? isC true now).2.1 = mdf ∧
      (dropWithNum mdf cdf ddf mk coll num ev0 i? v? isC true now).2.2.1 = ddf ∧
      ((dropWithNum mdf cdf ddf mk coll num ev0 i? v? isC true now).2.2.2).all
        isValidation = true) ∧
    (∀ new i v,
      (dropWithNum mdf cdf ddf mk coll num ev0 i? v? isC true now).1 =
          .dropCommitted new i v →
      ∃ vs e1 e2,
        (dropWithNum mdf cdf ddf mk coll num ev0 i? v? isC true now).2.2.2 =
          vs ++ [.post e1, .mutate .makers, .post e2, .mutate .dropboxes] ∧
        vs.all isValidation = true) := by
  by_cases hz : num = 0
  · constructor
    · intro _
      simp [dropWithNum, hz, hev0]
    · intro new i v h
      simp [dropWithNum, hz] at h
  · cases isC with
    | false =>
      constructor
      · intro _
        simp [dropWithNum, hz, hev0]
      · intro new i v h
        simp [dropWithNum, hz] at h
    | true =>
      cases hc1 : countCore mdf mk (some (-num)) i? v? true .makers with
      | proceed t1 cI cV cc =>
        have hc1r := countCore_resolved_args mdf mk (-num) i? v? true .makers t1 cI cV cc hc1
        by_cases hnn : (0:Int) ≤ num
        · cases hc2 : countCore cdf coll (some num) (some cI) (some cV) true .collectors with
          | proceed t2 i2 v2 c2 =>
            by_cases hneg : num + dropboxCurrent ddf mk coll cI cV < 0
            · constructor
              · intro _
                simp [dropWithNum, hz, _count, hc1, _collect_from, hc1r, hc2, hnn,
                  if_pos hneg, hev0, isValidation]
              · intro new i v h
                simp [dropWithNum, hz, _count, hc1, _collect_from, hc1r, hc2, hnn,
                  if_pos hneg] at h
            · constructor
              · intro hnc
                exfalso
                apply hnc (num + dropboxCurrent ddf mk coll cI cV) cI cV
                simp [dropWithNum, hz, _count, hc1, _collect_from, hc1r, hc2, hnn,
                  if_neg hneg]
              · intro new i v h
                refine ⟨ev0 ++ [.validate .makers mk (-num)] ++
                  [.validate .makers mk (-num), .validate .collectors coll num],
                  transMsg mk (countCmdText .makers)
                    (intRepr t1 ++ " " ++ cI ++ " " ++ cV) now none,
                  dropEntry mk coll new cI cV now, ?_, ?_⟩
                · simp [dropWithNum, hz, _count, hc1, _collect_from, hc1r, hc2, hnn,
                    if_neg hneg] at h ⊢
                  obtain ⟨h1, h2, h3⟩ := h
                  subst h1 h2 h3
                  simp
                · simp only [List.all_append, hev0, Bool.true_and]
                  simp [isValidation]
          | showInventory =>
            constructor
            · intro _
              simp [dropWithNum, hz, _count, hc1, _collect_from, hc1r, hc2, hnn,
                hev0, isValidation]
            · intro new i v h
              simp [dropWithNum, hz, _count, hc1, _collect_from, hc1r, hc2, hnn] at h
          | helpNoRecords =>
            constructor
            · intro _
              simp [dropWithNum, hz, _count, hc1, _collect_from, hc1r, hc2, hnn,
                hev0, isValidation]
            · intro new i v h
              simp [dropWithNum, hz, _count, hc1, _collect_from, hc1r, hc2, hnn] at h
          | reject r =>
            constructor
            · intro _
              simp [dropWithNum, hz, _count, hc1, _collect_from, hc1r, hc2, hnn,
                hev0, isValidation]
            · intro new i v h
              simp [dropWithNum, hz, _count, hc1, _collect_from, hc1r, hc2, hnn] at h
        · by_cases hneg : num + dropboxCurrent ddf mk coll cI cV < 0
          · constructor
            · intro _
              simp [dropWithNum, hz, _count, hc1, hnn, if_pos hneg, hev0, isValidation]
            · intro new i v h
              simp [dropWithNum, hz, _count, hc1, hnn, if_pos hneg] at h
          · constructor
            · intro hnc
              exfalso
              apply hnc (num + dropboxCurrent ddf mk coll cI cV) cI cV
              simp [dropWithNum, hz, _count, hc1, hc1r, hnn, if_neg hneg]
            · intro new i v h
              refine ⟨ev0 ++ [.validate .makers mk (-num)],
                transMsg mk (countCmdText .makers)
                  (intRepr t1 ++ " " ++ cI ++ " " ++ cV) now none,
                dropEntry mk coll new cI cV now, ?_, ?_⟩
              · simp [dropWithNum, hz, _count, hc1, hc1r, hnn, if_neg hneg] at h ⊢
                obtain ⟨h1, h2, h3⟩ := h
                subst h1 h2 h3
                simp
              · simp only [List.all_append, hev0, Bool.true_and]
                simp [isValidation]
      | showInventory =>
        constructor
        · intro _
          simp [dropWithNum, hz, _count, hc1, hev0, isValidation]
        · intro new i v h
          simp [dropWithNum, hz, _count, hc1] at h
      | helpNoRecords =>
        constructor
        · intro _
          simp [dropWithNum, hz, _count, hc1, hev0, isValidation]
        · intro new i v h
          simp [dropWithNum, hz, _count, hc1] at h
      | reject r =>
        constructor
        · intro _
          simp [dropWithNum, hz, _count, hc1, hev0, isValidation]
        · intro new i v h
          simp [dropWithNum, hz, _count, hc1] at h

/-- Counterexample to **C4** as stated: (i) a `drop ... all` whose resolved
amount is zero performs a source-side dry-run validation before the zero
rejection, so a zero-amount transfer is not rejected "before any
validation"; (ii) a negative (take-back) drop commits its writes although no
destination-credit dry run was performed — the only validation in its trace
is the source-side one. -/
theorem C4_counterexample :
    ((drop [⟨1, "prusa", "PETG", 0, 0⟩] [] [] 1 2 "all" none none true true 9).1 =
        .rejectedZero ∧
      (drop [⟨1, "prusa", "PETG", 0, 0⟩] [] [] 1 2 "all" none none true true 9).2.2.2 =
        [.validate .makers 1 0]) ∧
    ((drop [⟨1, "prusa", "PETG", 5, 0⟩] [] [⟨1, "prusa", "PETG", 2, 3, 0⟩]
          1 2 "-1" none none true true 9).1 = .dropCommitted 2 "prusa" "PETG" ∧
      ∀ e ∈ (drop [⟨1, "prusa", "PETG", 5, 0⟩] [] [⟨1, "prusa", "PETG", 2, 3, 0⟩]
          1 2 "-1" none none true true 9).2.2.2,
        isValidation e = true → e = .validate .makers 1 1) := by
  refine ⟨⟨by decide, by decide⟩, by decide, by decide⟩

/-- **C4** (amended): For collect-from, both sides are first validated in
dry-run mode — source debit (amount negated) then destination credit — and
if either validation rejects, the transfer aborts with no log writes and no
state mutation; only if both dry runs succeed are the two writes committed,
source debit first then destination credit; a zero amount is rejected
outright before any validation.  For the dropbox drop variant, a zero
numeric amount is rejected before any validation (a `drop ... all` instead
resolves the amount through a source-side dry run first); every non-commit
outcome performs no log writes and no state mutation, its trace holding
dry-run validations only (the destination-credit dry run occurring only for
non-negative amounts); and a commit's trace is dry-run validations followed
by exactly the source debit (post, then mutation) and then the ledger-row
post and dropbox mutation. -/
theorem C4_transfer_two_phase :
    (∀ (mdf cdf : PDf) (coll mk : Nat) (i? v? : Option String) (trial ok : Bool)
        (now : Nat),
      _collect_from mdf cdf coll mk 0 i? v? trial ok now =
        (.rejectedZero, mdf, cdf, [])) ∧
    (∀ mdf cdf coll mk num i? v? ok now,
      (_collect_from mdf cdf coll mk num i? v? false ok now).1 = .abortedTrial →
      (_collect_from mdf cdf coll mk num i? v? false ok now).2.1 = mdf ∧
      (_collect_from mdf cdf coll mk num i? v? false ok now).2.2.1 = cdf ∧
      ((_collect_from mdf cdf coll mk num i? v? false ok now).2.2.2).all
        isValidation = true) ∧
    (∀ mdf cdf coll mk num i? v? now,
      (_collect_from mdf cdf coll mk num i? v? false true now).1 = .committedOk →
      ∃ e1 e2, (_collect_from mdf cdf coll mk num i? v? false true now).2.2.2 =
        [.validate .makers mk (-num), .validate .collectors coll num,
         .post e1, .mutate .makers, .post e2, .mutate .collectors]) ∧
    (∀ mdf cdf ddf mk coll numIn i? v? isC ok now,
      intParse? numIn = some 0 →
      drop mdf cdf ddf mk coll numIn i? v? isC ok now =
        (.rejectedZero, mdf, ddf, [])) ∧
    (∀ mdf cdf ddf mk coll numIn i? v? isC now,
      (∀ new i v,
        (drop mdf cdf ddf mk coll numIn i? v? isC true now).1 ≠
          .dropCommitted new i v) →
      (drop mdf cdf ddf mk coll numIn i? v? isC true now).2.1 = mdf ∧
      (drop mdf cdf ddf mk coll numIn i? v? isC true now).2.2.1 = ddf ∧
      ((drop mdf cdf ddf mk coll numIn i? v? isC true now).2.2.2).all
        isValidation = true) ∧
    (∀ mdf cdf ddf mk coll numIn i? v? isC now new i v,
      (drop mdf cdf ddf mk coll numIn i? v? isC true now).1 =
          .dropCommitted new i v →
      ∃ vs e1 e2, (drop mdf cdf ddf mk coll numIn i? v? isC true now).2.2.2 =
        vs ++ [.post e1, .mutate .makers, .post e2, .mutate .dropboxes] ∧
        vs.all isValidation = true) := by
  refine ⟨?_, ?_, ?_, ?_, ?_, ?_⟩
  · intro mdf cdf coll mk i? v? trial ok now
    simp [_collect_from]
  · intro mdf cdf coll mk num i? v? ok now h
    by_cases hz : num = 0
    · simp [_collect_from, hz] at h
    · cases hc1 : countCore mdf mk (some (-num)) i? v? true .makers with
      | proceed t1 i1 v1 c1 =>
        cases hc2 : countCore cdf coll (some num) i? v? true .collectors with
        | proceed t2 i2 v2 c2 =>
          exfalso
          cases ok <;> simp [_collect_from, hz, _count, hc1, hc2] at h
        | showInventory => simp [_collect_from, hz, _count, hc1, hc2, isValidation]
        | helpNoRecords => simp [_collect_from, hz, _count, hc1, hc2, isValidation]
        | reject r => simp [_collect_from, hz, _count, hc1, hc2, isValidation]
      | showInventory => simp [_collect_from, hz, _count, hc1, isValidation]
      | helpNoRecords => simp [_collect_from, hz, _count, hc1, isValidation]
      | reject r => simp [_collect_from, hz, _count, hc1, isValidation]
  · intro mdf cdf coll mk num i? v? now h
    by_cases hz : num = 0
    · simp [_collect_from, hz] at h
    · cases hc1 : countCore mdf mk (some (-num)) i? v? true .makers with
      | proceed t1 i1 v1 c1 =>
        cases hc2 : countCore cdf coll (some num) i? v? true .collectors with
        | proceed t2 i2 v2 c2 =>
          refine ⟨transMsg mk (countCmdText .makers)
              (intRepr t1 ++ " " ++ i1 ++ " " ++ v1) now none,
            transMsg coll (countCmdText .collectors)
              (intRepr t2 ++ " " ++ i2 ++ " " ++ v2) now none, ?_⟩
          simp [_collect_from, hz, _count, hc1, hc2]
        | showInventory => simp [_collect_from, hz, _count, hc1, hc2] at h
        | helpNoRecords => simp [_collect_from, hz, _count, hc1, hc2] at h
        | reject r => simp [_collect_from, hz, _count, hc1, hc2] at h
      | showInventory => simp [_collect_from, hz, _count, hc1] at h
      | helpNoRecords => simp [_collect_from, hz, _count, hc1] at h
      | reject r => simp [_collect_from, hz, _count, hc1] at h
  · intro mdf cdf ddf mk coll numIn i? v? isC ok now hp
    have hall : ¬ numIn = "all" := by
      intro hcontra
      rw [hcontra] at hp
      exact absurd hp (by decide)
    simp [drop, hall, hp, dropWithNum]
  · intro mdf cdf ddf mk coll numIn i? v? isC now hnc
    by_cases hall : numIn = "all"
    · subst hall
      cases hc0 : countCore mdf mk (some 0) i? v? true .makers with
      | proceed n0 i0 v0 c0 =>
        have heq : drop mdf cdf ddf mk coll "all" i? v? isC true now =
            dropWithNum mdf cdf ddf mk coll n0 [.validate .makers mk 0] i? v?
              isC true now := by
          simp [drop, _count, hc0]
        rw [heq] at hnc ⊢
        exact (dropWithNum_spec mdf cdf ddf mk coll n0 [.validate .makers mk 0]
          i? v? isC now (by simp [isValidation])).1 hnc
      | showInventory => simp [drop, _count, hc0, isValidation]
      | helpNoRecords => simp [drop, _count, hc0, isValidation]
      | reject r => simp [drop, _count, hc0, isValidation]
    · cases hp : intParse? numIn with
      | none => simp [drop, hall, hp]
      | some n =>
        have heq : drop mdf cdf ddf mk coll numIn i? v? isC true now =
            dropWithNum mdf cdf ddf mk coll n [] i? v? isC true now := by
          simp [drop, hall, hp]
        rw [heq] at hnc ⊢
        exact (dropWithNum_spec mdf cdf ddf mk coll n [] i? v? isC now rfl).1 hnc
  · intro mdf cdf ddf mk coll numIn i? v? isC now new i v h
    by_cases hall : numIn = "all"
    · subst hall
      cases hc0 : countCore mdf mk (some 0) i? v? true .makers with
      | proceed n0 i0 v0 c0 =>
        have heq : drop mdf cdf ddf mk coll "all" i? v? isC true now =
            dropWithNum mdf cdf ddf mk coll n0 [.validate .makers mk 0] i? v?
              isC true now := by
          simp [drop, _count, hc0]
        rw [heq] at h ⊢
        exact (dropWithNum_spec mdf cdf ddf mk coll n0 [.validate .makers mk 0]
          i? v? isC now (by simp [isValidation])).2 new i v h
      | showInventory => simp [drop, _count, hc0] at h
      | helpNoRecords => simp [drop, _count, hc0] at h
      | reject r => simp [drop, _count, hc0] at h
    · cases hp : intParse? numIn with
      | none => simp [drop, hall, hp] at h
      | some n =>
        have heq : drop mdf cdf ddf mk coll numIn i? v? isC true now =
            dropWithNum mdf cdf ddf mk coll n [] i? v? isC true now := by
          simp [drop, hall, hp]
        rw [heq] at h ⊢
        exact (dropWithNum_spec mdf cdf ddf mk coll n [] i? v? isC now rfl).2 new i v h

/-- Witness for C4 at a concrete input: a successful collect-from commits
with the trace ordered validations, source debit, destination credit,
obtained through the amended theorem. -/
theorem C4_transfer_two_phase_witness :
    ∃ e1 e2, (_collect_from [⟨1, "prusa", "PETG", 5, 0⟩] [] 2 1 3
        (some "pru") (some "pet") false true 9).2.2.2 =
      [.validate .makers 1 (-3), .validate .collectors 2 3,
       .post e1, .mutate .makers, .post e2, .mutate .collectors] :=
  C4_transfer_two_phase.2.2.1 [⟨1, "prusa", "PETG", 5, 0⟩] [] 2 1 3
    (some "pru") (some "pet") 9 (by decide)

theorem cleanCell_mem {s : String} (h : cleanCell s = true) :
    ∀ c ∈ s.data, c ≠ ',' ∧ c ≠ '\n' := by
  intro c hc
  have := List.all_eq_true.mp h c hc
  simpa using this

theorem digit_not_special {c : Char} (h : c.isDigit = true) :
    c ≠ ',' ∧ c ≠ '\n' ∧ c.isWhitespace = false ∧ c ≠ ':' ∧
      c ≠ '<' ∧ c ≠ '@' ∧ c ≠ '!' ∧ c ≠ '>' := by
  have hw : c.isWhitespace = false := by
    cases hw : c.isWhitespace
    · rfl
    · exfalso
      simp only [Char.isWhitespace, Bool.or_eq_true, decide_eq_true_eq] at hw
      rcases hw with ((h1 | h1) | h1) | h1 <;> (subst h1; exact absurd h (by decide))
  refine ⟨?_, ?_, hw, ?_, ?_, ?_, ?_, ?_⟩ <;>
    (intro hc; subst hc; exact absurd h (by decide))

theorem cleanCell_natRepr (n : Nat) : cleanCell (natRepr n) = true := by
  simp only [cleanCell, List.all_eq_true]
  intro c hc
  have := digit_not_special (natRepr_digits n c hc)
  simp [this.1, this.2.1]

theorem intRepr_chars (i : Int) : ∀ c ∈ (intRepr i).data, c = '-' ∨ c.isDigit = true := by
  intro c hc
  rw [intRepr] at hc
  split at hc
  · rw [String.data_append] at hc
    rcases List.mem_append.mp hc with hc | hc
    · left; simpa using hc
    · right; exact natRepr_digits _ c hc
  · right; exact natRepr_digits _ c hc

theorem cleanCell_intRepr (i : Int) : cleanCell (intRepr i) = true := by
  simp only [cleanCell, List.all_eq_true]
  intro c hc
  rcases intRepr_chars i c hc with hc' | hc'
  · subst hc'; decide
  · have := digit_not_special hc'
    simp [this.1, this.2.1]

theorem splitOnChar_no_sep (sep : Char) :
    ∀ l : List Char, sep ∉ l → splitOnChar sep l = [l] := by
  intro l
  induction l with
  | nil => intro _; rfl
  | cons c rest ih =>
    intro h
    have hc : ¬ c = sep := fun hc => h (hc ▸ List.mem_cons_self c rest)
    rw [splitOnChar, if_neg hc, ih (fun hm => h (List.mem_cons_of_mem c hm))]

theorem splitOnChar_append (sep : Char) :
    ∀ l₁ l₂ : List Char, sep ∉ l₁ →
      splitOnChar sep (l₁ ++ sep :: l₂) = l₁ :: splitOnChar sep l₂ := by
  intro l₁
  induction l₁ with
  | nil =>
    intro l₂ _
    simp [splitOnChar]
  | cons c rest ih =>
    intro l₂ h
    have hc : ¬ c = sep := fun hc => h (hc ▸ List.mem_cons_self c rest)
    rw [List.cons_append, splitOnChar, if_neg hc,
      ih l₂ (fun hm => h (List.mem_cons_of_mem c hm))]

theorem pySplitChar_joinWith (sep : Char) :
    ∀ ls : List String, ls ≠ [] → (∀ l ∈ ls, sep ∉ l.data) →
      pySplitChar sep (joinWith (String.mk [sep]) ls) = ls := by
  intro ls
  induction ls with
  | nil => intro h; exact absurd rfl h
  | cons x rest ih =>
    intro _ h
    cases rest with
    | nil =>
      show (splitOnChar sep x.data).map String.mk = [x]
      rw [splitOnChar_no_sep sep x.data (h x (List.mem_cons_self x []))]
      rfl
    | cons y ys =>
      show (splitOnChar sep (x ++ String.mk [sep] ++ joinWith (String.mk [sep]) (y :: ys)).data).map
        String.mk = x :: y :: ys
      rw [String.data_append, String.data_append]
      show (splitOnChar sep (x.data ++ [sep] ++ _)).map String.mk = _
      rw [List.append_assoc, List.singleton_append,
        splitOnChar_append sep x.data _ (h x (List.mem_cons_self x _))]
      have h2 : List.map String.mk
          (splitOnChar sep (joinWith (String.mk [sep]) (y :: ys)).data) = y :: ys :=
        ih (by simp) (fun l hl => h l (List.mem_cons_of_mem x hl))
      rw [List.map_cons, h2]

/-- Membership in a joined string comes from the separator or some piece. -/
theorem mem_joinWith (sep : String) (c : Char) :
    ∀ ls : List String, c ∈ (joinWith sep ls).data →
      c ∈ sep.data ∨ ∃ l ∈ ls, c ∈ l.data := by
  intro ls
  induction ls with
  | nil => intro h; simp [joinWith] at h
  | cons x rest ih =>
    intro h
    cases rest with
    | nil =>
      right; exact ⟨x, List.mem_cons_self x [], h⟩
    | cons y ys =>
      rw [joinWith, String.data_append, String.data_append] at h
      rcases List.mem_append.mp h with h' | h'
      · rcases List.mem_append.mp h' with h'' | h''
        · right; exact ⟨x, List.mem_cons_self x _, h''⟩
        · left; exact h''
      · rcases ih h' with h'' | ⟨l, hl, hcl⟩
        · left; exact h''
        · right; exact ⟨l, List.mem_cons_of_mem x hl, hcl⟩

theorem joinWith_ne_nil (sep : String) :
    ∀ ls : List String, ls ≠ [] → (∀ l ∈ ls, l.data ≠ []) →
      (joinWith sep ls).data ≠ [] := by
  intro ls
  induction ls with
  | nil => intro h; exact absurd rfl h
  | cons x rest _ =>
    intro _ h
    cases rest with
    | nil => exact h x (List.mem_cons_self x [])
    | cons y ys =>
      rw [joinWith, String.data_append, String.data_append]
      intro hnil
      rcases List.append_eq_nil.mp hnil with ⟨h1, _⟩
      rcases List.append_eq_nil.mp h1 with ⟨h2, _⟩
      exact h x (List.mem_cons_self x _) h2

theorem noNN_of_not_mem : ∀ l : List Char, '\n' ∉ l → noNN l = true := by
  intro l
  induction l with
  | nil => intro _; rfl
  | cons c tail ih =>
    intro h
    cases tail with
    | nil => rfl
    | cons d t =>
      have hc : ¬ c = '\n' := fun hc => h (hc ▸ List.mem_cons_self c _)
      have ht := ih (fun hm => h (List.mem_cons_of_mem c hm))
      simp [noNN, hc, ht]

theorem splitNN_no_nn : ∀ l : List Char, noNN l = true → splitNN l = [l] := by
  intro l
  induction l with
  | nil => intro _; rfl
  | cons c tail ih =>
    intro h
    cases tail with
    | nil =>
      by_cases hc : c = '\n' <;> simp [splitNN, hc]
    | cons d t =>
      simp only [noNN, Bool.and_eq_true, Bool.not_eq_true', Bool.and_eq_false_iff,
        decide_eq_false_iff_not] at h
      have ht := ih h.2
      by_cases hc : c = '\n'
      · have hd : ¬ d = '\n' := by
          rcases h.1 with h1 | h1
          · exact absurd hc h1
          · exact h1
        rw [hc]
        rw [show splitNN ('\n' :: d :: t) = match splitNN (d :: t) with
            | r :: rs => ('\n' :: r) :: rs
            | [] => [['\n']] from by simp [splitNN, hd]]
        rw [ht]
      · rw [show splitNN (c :: d :: t) = match splitNN (d :: t) with
            | r :: rs => (c :: r) :: rs
            | [] => [[c]] from by simp [splitNN, hc]]
        rw [ht]

theorem splitNN_append : ∀ a rest : List Char, noNN a = true →
    a.getLast? ≠ some '\n' →
    splitNN (a ++ '\n' :: '\n' :: rest) = a :: splitNN rest := by
  intro a
  induction a with
  | nil =>
    intro rest _ _
    simp [splitNN]
  | cons c tail ih =>
    intro rest hno hlast
    cases tail with
    | nil =>
      have hc : ¬ c = '\n' := by
        intro hc
        exact hlast (by simp [hc])
      show splitNN (c :: '\n' :: '\n' :: rest) = [c] :: splitNN rest
      rw [show splitNN (c :: '\n' :: '\n' :: rest) =
          match splitNN ('\n' :: '\n' :: rest) with
          | r :: rs => (c :: r) :: rs
          | [] => [[c]] from by simp [splitNN, hc]]
      rw [show splitNN ('\n' :: '\n' :: rest) = [] :: splitNN rest from by simp [splitNN]]
    | cons d t =>
      simp only [noNN, Bool.and_eq_true, Bool.not_eq_true', Bool.and_eq_false_iff,
        decide_eq_false_iff_not] at hno
      have hlast' : (d :: t).getLast? ≠ some '\n' := by
        rwa [List.getLast?_cons_cons] at hlast
      have ih' := ih rest hno.2 hlast'
      by_cases hc : c = '\n'
      · have hd : ¬ d = '\n' := by
          rcases hno.1 with h1 | h1
          · exact absurd hc h1
          · exact h1
        rw [hc]
        show splitNN ('\n' :: ((d :: t) ++ '\n' :: '\n' :: rest)) = _
        rw [show splitNN ('\n' :: ((d :: t) ++ '\n' :: '\n' :: rest)) =
            match splitNN ((d :: t) ++ '\n' :: '\n' :: rest) with
            | r :: rs => ('\n' :: r) :: rs
            | [] => [['\n']] from by simp [splitNN, hd]]
        rw [ih']
      · show splitNN (c :: ((d :: t) ++ '\n' :: '\n' :: rest)) = _
        rw [show splitNN (c :: ((d :: t) ++ '\n' :: '\n' :: rest)) =
            match splitNN ((d :: t) ++ '\n' :: '\n' :: rest) with
            | r :: rs => (c :: r) :: rs
            | [] => [[c]] from by simp [splitNN, hc]]
        rw [ih']

theorem mem_of_getLast_eq : ∀ (l : List Char) (c : Char), l.getLast? = some c → c ∈ l := by
  intro l
  induction l with
  | nil => intro c h; simp at h
  | cons x t ih =>
    intro c h
    cases t with
    | nil =>
      simp only [List.getLast?_singleton, Option.some.injEq] at h
      simp [h]
    | cons y ys =>
      rw [List.getLast?_cons_cons] at h
      exact List.mem_cons_of_mem x (ih c h)

theorem noNN_append_nl : ∀ x rest : List Char, '\n' ∉ x → noNN rest = true →
    rest.head? ≠ some '\n' → noNN (x ++ '\n' :: rest) = true := by
  intro x
  induction x with
  | nil =>
    intro rest _ hrest hhead
    cases rest with
    | nil => rfl
    | cons r rs =>
      have hr : ¬ r = '\n' := fun hr => hhead (by simp [hr])
      simp only [List.nil_append]
      simp [noNN, hr, hrest]
  | cons c tail ih =>
    intro rest h hrest hhead
    have hc : ¬ c = '\n' := fun hc => h (hc ▸ List.mem_cons_self c tail)
    have ih' := ih rest (fun hm => h (List.mem_cons_of_mem c hm)) hrest hhead
    cases tail with
    | nil => simp [noNN, hc]; simpa using ih'
    | cons d t =>
      rw [List.cons_append]
      rw [List.cons_append] at ih'
      simp [noNN, hc]
      simpa [noNN] using ih'

/-- A CSV line with at least two cells and a nonempty separator is nonempty. -/
theorem joinWith_cons2_ne_nil (sep x y : String) (xs : List String)
    (hsep : sep.data ≠ []) : (joinWith sep (x :: y :: xs)).data ≠ [] := by
  rw [joinWith, String.data_append, String.data_append]
  intro hnil
  rcases List.append_eq_nil.mp hnil with ⟨h1, _⟩
  rcases List.append_eq_nil.mp h1 with ⟨_, h2⟩
  exact hsep h2

/-- Joining nonempty newline-free lines with a newline yields a blank-line-free
body that neither starts nor ends with a newline. -/
theorem joinNl_ok : ∀ ls : List String, ls ≠ [] →
    (∀ l ∈ ls, l.data ≠ [] ∧ '\n' ∉ l.data) →
    (joinWith "\n" ls).data ≠ [] ∧
    (joinWith "\n" ls).data.head? ≠ some '\n' ∧
    (joinWith "\n" ls).data.getLast? ≠ some '\n' ∧
    noNN (joinWith "\n" ls).data = true := by
  intro ls
  induction ls with
  | nil => intro h; exact absurd rfl h
  | cons x rest ih =>
    intro _ h
    obtain ⟨hxne, hxnl⟩ := h x (List.mem_cons_self x rest)
    cases rest with
    | nil =>
      refine ⟨hxne, ?_, ?_, noNN_of_not_mem x.data hxnl⟩
      · intro hh
        cases hx : x.data with
        | nil => exact hxne hx
        | cons c t =>
          rw [show (joinWith "\n" [x]).data = x.data from rfl, hx] at hh
          simp only [List.head?_cons, Option.some.injEq] at hh
          exact hxnl (by rw [hx, hh]; exact List.mem_cons_self _ _)
      · intro hl
        exact hxnl (mem_of_getLast_eq x.data '\n' hl)
    | cons y ys =>
      obtain ⟨hjne, hjhead, hjlast, hjnn⟩ :=
        ih (by simp) (fun l hl => h l (List.mem_cons_of_mem x hl))
      have hdata : (joinWith "\n" (x :: y :: ys)).data =
          x.data ++ '\n' :: (joinWith "\n" (y :: ys)).data := by
        rw [joinWith, String.data_append, String.data_append]
        rw [show ("\n" : String).data = ['\n'] from rfl, List.append_assoc,
          List.singleton_append]
      refine ⟨?_, ?_, ?_, ?_⟩
      · rw [hdata]
        simp
      · rw [hdata]
        cases hx : x.data with
        | nil => exact absurd hx hxne
        | cons c t =>
          rw [List.cons_append]
          simp only [List.head?_cons, ne_eq, Option.some.injEq]
          intro hc
          exact hxnl (by rw [hx, hc]; exact List.mem_cons_self _ _)
      · rw [hdata, List.getLast?_append_cons]
        cases hj : (joinWith "\n" (y :: ys)).data with
        | nil => exact absurd hj hjne
        | cons c t =>
          rw [List.getLast?_cons_cons]
          rw [hj] at hjlast
          exact hjlast
      · rw [hdata]
        exact noNN_append_nl x.data _ hxnl hjnn hjhead

theorem cleanCell_no_comma {s : String} (h : cleanCell s = true) : ',' ∉ s.data :=
  fun hm => (cleanCell_mem h ',' hm).1 rfl

theorem cleanCell_no_nl {s : String} (h : cleanCell s = true) : '\n' ∉ s.data :=
  fun hm => (cleanCell_mem h '\n' hm).2 rfl

theorem mapM_map_eq_some {α β γ : Type} (g : α → β) (f : β → Option γ) (k : α → γ) :
    ∀ l : List α, (∀ a ∈ l, f (g a) = some (k a)) → (l.map g).mapM f = some (l.map k) := by
  intro l
  induction l with
  | nil => intro _; rfl
  | cons x t ih =>
    intro h
    rw [List.map_cons, ← List.mapM'_eq_mapM, List.mapM', h x (List.mem_cons_self x t),
      List.mapM'_eq_mapM, ih (fun a ha => h a (List.mem_cons_of_mem x ha))]
    rfl

/-- Every line of a personal CSV section with clean cells is nonempty and
newline-free. -/
theorem personalCsvLines_ok (names : Nat → String) (df : PDf)
    (h : ∀ r ∈ df, cleanCell r.item = true ∧ cleanCell r.variant = true ∧
      cleanCell (names r.user_id) = true) :
    ∀ l ∈ personalCsvLines names df, l.data ≠ [] ∧ '\n' ∉ l.data := by
  intro l hl
  rcases List.mem_cons.mp hl with hl | hl
  · subst hl
    constructor
    · decide
    · decide
  · rcases List.mem_map.mp hl with ⟨r, hr, rfl⟩
    obtain ⟨hi, hv, hn⟩ := h r hr
    constructor
    · exact joinWith_cons2_ne_nil "," _ _ _ (by decide)
    · intro hmem
      rcases mem_joinWith "," '\n' _ hmem with hs | ⟨l', hl', hc'⟩
      · simp at hs
      · simp only [List.mem_cons, List.not_mem_nil, or_false] at hl'
        rcases hl' with rfl | rfl | rfl | rfl | rfl | rfl
        · exact cleanCell_no_nl (cleanCell_natRepr _) hc'
        · exact cleanCell_no_nl hi hc'
        · exact cleanCell_no_nl hv hc'
        · exact cleanCell_no_nl (cleanCell_intRepr _) hc'
        · exact cleanCell_no_nl (cleanCell_natRepr _) hc'
        · exact cleanCell_no_nl hn hc'

/-- Reading back one personal role's CSV body recovers the table, with the
`user` display-name column dropped and `second_user_id` absent. -/
theorem readPersonalBody (names : Nat → String) (now : Nat) (df : PDf)
    (h : ∀ r ∈ df, cleanCell r.item = true ∧ cleanCell r.variant = true ∧
      cleanCell (names r.user_id) = true) :
    readSyncPointCsv now (joinWith "\n" (personalCsvLines names df)) =
      some (df.map syncOfP) := by
  have hlineok := personalCsvLines_ok names df h
  have hsplitNl : pySplitChar '\n' (joinWith "\n" (personalCsvLines names df)) =
      personalCsvLines names df :=
    pySplitChar_joinWith '\n' (personalCsvLines names df) (by simp [personalCsvLines])
      (fun l hl => (hlineok l hl).2)
  have hfilter : (personalCsvLines names df).filter (· ≠ "") = personalCsvLines names df := by
    apply List.filter_eq_self.mpr
    intro l hl
    have : l ≠ "" := by
      intro he
      exact (hlineok l hl).1 (by rw [he])
    simpa using this
  rw [readSyncPointCsv, hsplitNl, hfilter]
  rw [show personalCsvLines names df =
    joinWith "," (PERSONAL_DF_COLUMNS ++ ["user"]) :: df.map (personalCsvLine names) from rfl]
  simp only []
  rw [show pySplitChar ',' (joinWith "," (PERSONAL_DF_COLUMNS ++ ["user"])) =
    ["user_id", "item", "variant", "count", "update_time", "user"] from by decide]
  rw [show colIdx "user_id" ["user_id", "item", "variant", "count", "update_time", "user"] =
    some 0 from by decide]
  rw [show colIdx "item" ["user_id", "item", "variant", "count", "update_time", "user"] =
    some 1 from by decide]
  rw [show colIdx "variant" ["user_id", "item", "variant", "count", "update_time", "user"] =
    some 2 from by decide]
  rw [show colIdx "count" ["user_id", "item", "variant", "count", "update_time", "user"] =
    some 3 from by decide]
  rw [show colIdx "second_user_id"
    ["user_id", "item", "variant", "count", "update_time", "user"] = none from by decide]
  rw [show colIdx "update_time" ["user_id", "item", "variant", "count", "update_time", "user"] =
    some 4 from by decide]
  simp only []
  apply mapM_map_eq_some
  intro r hr
  obtain ⟨hi, hv, hn⟩ := h r hr
  have hcells : pySplitChar ',' (personalCsvLine names r) =
      [natRepr r.user_id, r.item, r.variant, intRepr r.count,
       renderTime r.update_time, names r.user_id] := by
    apply pySplitChar_joinWith ',' _ (by simp)
    intro l hl
    simp only [List.mem_cons, List.not_mem_nil, or_false] at hl
    rcases hl with rfl | rfl | rfl | rfl | rfl | rfl
    · exact cleanCell_no_comma (cleanCell_natRepr _)
    · exact cleanCell_no_comma hi
    · exact cleanCell_no_comma hv
    · exact cleanCell_no_comma (cleanCell_intRepr _)
    · exact cleanCell_no_comma (cleanCell_natRepr _)
    · exact cleanCell_no_comma hn
  simp only [hcells, List.getElem?_cons_zero, List.getElem?_cons_succ, Option.some_bind,
    natParse_natRepr, intParse_intRepr, renderTime, timeParse?, Option.bind_some]
  rfl

/-- Every line of the dropbox CSV section with clean cells is nonempty and
newline-free. -/
theorem transactionCsvLines_ok (names : Nat → String) (df : TDf)
    (h : ∀ r ∈ df, cleanCell r.item = true ∧ cleanCell r.variant = true ∧
      cleanCell (names r.user_id) = true) :
    ∀ l ∈ transactionCsvLines names df, l.data ≠ [] ∧ '\n' ∉ l.data := by
  intro l hl
  rcases List.mem_cons.mp hl with hl | hl
  · subst hl
    constructor
    · decide
    · decide
  · rcases List.mem_map.mp hl with ⟨r, hr, rfl⟩
    obtain ⟨hi, hv, hn⟩ := h r hr
    constructor
    · exact joinWith_cons2_ne_nil "," _ _ _ (by decide)
    · intro hmem
      rcases mem_joinWith "," '\n' _ hmem with hs | ⟨l', hl', hc'⟩
      · simp at hs
      · simp only [List.mem_cons, List.not_mem_nil, or_false] at hl'
        rcases hl' with rfl | rfl | rfl | rfl | rfl | rfl | rfl
        · exact cleanCell_no_nl (cleanCell_natRepr _) hc'
        · exact cleanCell_no_nl hi hc'
        · exact cleanCell_no_nl hv hc'
        · exact cleanCell_no_nl (cleanCell_natRepr _) hc'
        · exact cleanCell_no_nl (cleanCell_intRepr _) hc'
        · exact cleanCell_no_nl (cleanCell_natRepr _) hc'
        · exact cleanCell_no_nl hn hc'

/-- Reading back the dropbox role's CSV body recovers the table, including its
`second_user_id` column. -/
theorem readTransactionBody (names : Nat → String) (now : Nat) (df : TDf)
    (h : ∀ r ∈ df, cleanCell r.item = true ∧ cleanCell r.variant = true ∧
      cleanCell (names r.user_id) = true) :
    readSyncPointCsv now (joinWith "\n" (transactionCsvLines names df)) =
      some (df.map syncOfT) := by
  have hlineok := transactionCsvLines_ok names df h
  have hsplitNl : pySplitChar '\n' (joinWith "\n" (transactionCsvLines names df)) =
      transactionCsvLines names df :=
    pySplitChar_joinWith '\n' (transactionCsvLines names df) (by simp [transactionCsvLines])
      (fun l hl => (hlineok l hl).2)
  have hfilter : (transactionCsvLines names df).filter (· ≠ "") =
      transactionCsvLines names df := by
    apply List.filter_eq_self.mpr
    intro l hl
    have : l ≠ "" := by
      intro he
      exact (hlineok l hl).1 (by rw [he])
    simpa using this
  rw [readSyncPointCsv, hsplitNl, hfilter]
  rw [show transactionCsvLines names df =
    joinWith "," (TRANSACTION_DF_COLUMNS ++ ["user"]) ::
      df.map (transactionCsvLine names) from rfl]
  simp only []
  rw [show pySplitChar ',' (joinWith "," (TRANSACTION_DF_COLUMNS ++ ["user"])) =
    ["user_id", "item", "variant", "second_user_id", "count", "update_time", "user"]
    from by decide]
  rw [show colIdx "user_id"
    ["user_id", "item", "variant", "second_user_id", "count", "update_time", "user"] =
    some 0 from by decide]
  rw [show colIdx "item"
    ["user_id", "item", "variant", "second_user_id", "count", "update_time", "user"] =
    some 1 from by decide]
  rw [show colIdx "variant"
    ["user_id", "item", "variant", "second_user_id", "count", "update_time", "user"] =
    some 2 from by decide]
  rw [show colIdx "count"
    ["user_id", "item", "variant", "second_user_id", "count", "update_time", "user"] =
    some 4 from by decide]
  rw [show colIdx "second_user_id"
    ["user_id", "item", "variant", "second_user_id", "count", "update_time", "user"] =
    some 3 from by decide]
  rw [show colIdx "update_time"
    ["user_id", "item", "variant", "second_user_id", "count", "update_time", "user"] =
    some 5 from by decide]
  simp only []
  apply mapM_map_eq_some
  intro r hr
  obtain ⟨hi, hv, hn⟩ := h r hr
  have hcells : pySplitChar ',' (transactionCsvLine names r) =
      [natRepr r.user_id, r.item, r.variant, natRepr r.second_user_id,
       intRepr r.count, renderTime r.update_time, names r.user_id] := by
    apply pySplitChar_joinWith ',' _ (by simp)
    intro l hl
    simp only [List.mem_cons, List.not_mem_nil, or_false] at hl
    rcases hl with rfl | rfl | rfl | rfl | rfl | rfl | rfl
    · exact cleanCell_no_comma (cleanCell_natRepr _)
    · exact cleanCell_no_comma hi
    · exact cleanCell_no_comma hv
    · exact cleanCell_no_comma (cleanCell_natRepr _)
    · exact cleanCell_no_comma (cleanCell_intRepr _)
    · exact cleanCell_no_comma (cleanCell_natRepr _)
    · exact cleanCell_no_comma hn
  simp only [hcells, List.getElem?_cons_zero, List.getElem?_cons_succ, Option.some_bind,
    natParse_natRepr, intParse_intRepr, renderTime, timeParse?, Option.bind_some]
  rfl

theorem mk_data_eta (s : String) : String.mk s.data = s := rfl

theorem legacyPersonalCsvLines_ok (names : Nat → String)
    (rows : List (Nat × String × String × Int))
    (h : ∀ r ∈ rows, cleanCell r.2.1 = true ∧ cleanCell r.2.2.1 = true ∧
      cleanCell (names r.1) = true) :
    ∀ l ∈ legacyPersonalCsvLines names rows, l.data ≠ [] ∧ '\n' ∉ l.data := by
  intro l hl
  rcases List.mem_cons.mp hl with hl | hl
  · subst hl
    constructor
    · decide
    · decide
  · rcases List.mem_map.mp hl with ⟨r, hr, rfl⟩
    obtain ⟨hi, hv, hn⟩ := h r hr
    constructor
    · exact joinWith_cons2_ne_nil "," _ _ _ (by decide)
    · intro hmem
      rcases mem_joinWith "," '\n' _ hmem with hs | ⟨l', hl', hc'⟩
      · simp at hs
      · simp only [List.mem_cons, List.not_mem_nil, or_false] at hl'
        rcases hl' with rfl | rfl | rfl | rfl | rfl
        · exact cleanCell_no_nl (cleanCell_natRepr _) hc'
        · exact cleanCell_no_nl hi hc'
        · exact cleanCell_no_nl hv hc'
        · exact cleanCell_no_nl (cleanCell_intRepr _) hc'
        · exact cleanCell_no_nl hn hc'

/-- Reading back a legacy personal section defaults every row's `update_time`
to the read time and drops the display-name column. -/
theorem readLegacyBody (names : Nat → String) (now : Nat)
    (rows : List (Nat × String × String × Int))
    (h : ∀ r ∈ rows, cleanCell r.2.1 = true ∧ cleanCell r.2.2.1 = true ∧
      cleanCell (names r.1) = true) :
    readSyncPointCsv now (joinWith "\n" (legacyPersonalCsvLines names rows)) =
      some (rows.map (syncOfLegacy now)) := by
  have hlineok := legacyPersonalCsvLines_ok names rows h
  have hsplitNl : pySplitChar '\n' (joinWith "\n" (legacyPersonalCsvLines names rows)) =
      legacyPersonalCsvLines names rows :=
    pySplitChar_joinWith '\n' (legacyPersonalCsvLines names rows)
      (by simp [legacyPersonalCsvLines]) (fun l hl => (hlineok l hl).2)
  have hfilter : (legacyPersonalCsvLines names rows).filter (· ≠ "") =
      legacyPersonalCsvLines names rows := by
    apply List.filter_eq_self.mpr
    intro l hl
    have : l ≠ "" := by
      intro he
      exact (hlineok l hl).1 (by rw [he])
    simpa using this
  rw [readSyncPointCsv, hsplitNl, hfilter]
  rw [show legacyPersonalCsvLines names rows =
    joinWith "," ["user_id", "item", "variant", "count", "user"] ::
      rows.map (fun r => joinWith ","
        [natRepr r.1, r.2.1, r.2.2.1, intRepr r.2.2.2, names r.1]) from rfl]
  simp only []
  rw [show pySplitChar ',' (joinWith "," ["user_id", "item", "variant", "count", "user"]) =
    ["user_id", "item", "variant", "count", "user"] from by decide]
  rw [show colIdx "user_id" ["user_id", "item", "variant", "count", "user"] =
    some 0 from by decide]
  rw [show colIdx "item" ["user_id", "item", "variant", "count", "user"] =
    some 1 from by decide]
  rw [show colIdx "variant" ["user_id", "item", "variant", "count", "user"] =
    some 2 from by decide]
  rw [show colIdx "count" ["user_id", "item", "variant", "count", "user"] =
    some 3 from by decide]
  rw [show colIdx "second_user_id" ["user_id", "item", "variant", "count", "user"] =
    none from by decide]
  rw [show colIdx "update_time" ["user_id", "item", "variant", "count", "user"] =
    none from by decide]
  simp only []
  apply mapM_map_eq_some
  intro r hr
  obtain ⟨hi, hv, hn⟩ := h r hr
  have hcells : pySplitChar ','
      (joinWith "," [natRepr r.1, r.2.1, r.2.2.1, intRepr r.2.2.2, names r.1]) =
      [natRepr r.1, r.2.1, r.2.2.1, intRepr r.2.2.2, names r.1] := by
    apply pySplitChar_joinWith ',' _ (by simp)
    intro l hl
    simp only [List.mem_cons, List.not_mem_nil, or_false] at hl
    rcases hl with rfl | rfl | rfl | rfl | rfl
    · exact cleanCell_no_comma (cleanCell_natRepr _)
    · exact cleanCell_no_comma hi
    · exact cleanCell_no_comma hv
    · exact cleanCell_no_comma (cleanCell_intRepr _)
    · exact cleanCell_no_comma hn
  simp only [hcells, List.getElem?_cons_zero, List.getElem?_cons_succ, Option.some_bind,
    natParse_natRepr, intParse_intRepr]
  rfl

/-- Decoding an encoded checkpoint recovers all three role tables. -/
theorem decode_encode_checkpoint (names : Nat → String) (makers collectors : PDf)
    (dropboxes : TDf) (now : Nat)
    (hm : ∀ r ∈ makers, cleanCell r.item = true ∧ cleanCell r.variant = true ∧
      cleanCell (names r.user_id) = true)
    (hc : ∀ r ∈ collectors, cleanCell r.item = true ∧ cleanCell r.variant = true ∧
      cleanCell (names r.user_id) = true)
    (hd : ∀ r ∈ dropboxes, cleanCell r.item = true ∧ cleanCell r.variant = true ∧
      cleanCell (names r.user_id) = true) :
    decodeCheckpoint now (encodeCheckpoint names makers collectors dropboxes) =
      some (makers.map syncOfP, collectors.map syncOfP, dropboxes.map syncOfT) := by
  obtain ⟨_, _, hlast1, hnn1⟩ := joinNl_ok (personalCsvLines names makers)
    (by simp [personalCsvLines]) (personalCsvLines_ok names makers hm)
  obtain ⟨_, _, hlast2, hnn2⟩ := joinNl_ok (personalCsvLines names collectors)
    (by simp [personalCsvLines]) (personalCsvLines_ok names collectors hc)
  obtain ⟨_, _, hlast3, hnn3⟩ := joinNl_ok (transactionCsvLines names dropboxes)
    (by simp [transactionCsvLines]) (transactionCsvLines_ok names dropboxes hd)
  have hdata : (encodeCheckpoint names makers collectors dropboxes).data =
      (joinWith "\n" (personalCsvLines names makers)).data ++ '\n' :: '\n' ::
        ((joinWith "\n" (personalCsvLines names collectors)).data ++ '\n' :: '\n' ::
          ((joinWith "\n" (transactionCsvLines names dropboxes)).data ++ '\n' :: '\n' ::
            ("version\n'" ++ CODE_VERSION ++ "'\n").data)) := by
    simp only [encodeCheckpoint, personalCsv, transactionCsv, String.data_append,
      show ("\n" : String).data = ['\n'] from rfl, List.append_assoc,
      List.singleton_append, List.cons_append, List.nil_append]
  have hsplit : pySplitNN (encodeCheckpoint names makers collectors dropboxes) =
      [joinWith "\n" (personalCsvLines names makers),
       joinWith "\n" (personalCsvLines names collectors),
       joinWith "\n" (transactionCsvLines names dropboxes),
       String.mk ("version\n'" ++ CODE_VERSION ++ "'\n").data] := by
    rw [pySplitNN, hdata, splitNN_append _ _ hnn1 hlast1, splitNN_append _ _ hnn2 hlast2,
      splitNN_append _ _ hnn3 hlast3,
      show splitNN ("version\n'" ++ CODE_VERSION ++ "'\n").data =
        [("version\n'" ++ CODE_VERSION ++ "'\n").data] from by decide]
    simp only [List.map_cons, List.map_nil, mk_data_eta]
  rw [decodeCheckpoint, hsplit]
  simp only [List.dropLast, List.getElem?_cons_zero, List.getElem?_cons_succ]
  rw [readPersonalBody names now makers hm, readPersonalBody names now collectors hc,
    readTransactionBody names now dropboxes hd]

/-- A legacy checkpoint with only two role sections decodes with the missing
dropbox role left empty, and defaults every `update_time` to the read time. -/
theorem decode_legacy_two_sections (names : Nat → String)
    (lm lc : List (Nat × String × String × Int)) (now : Nat)
    (hm : ∀ r ∈ lm, cleanCell r.2.1 = true ∧ cleanCell r.2.2.1 = true ∧
      cleanCell (names r.1) = true)
    (hc : ∀ r ∈ lc, cleanCell r.2.1 = true ∧ cleanCell r.2.2.1 = true ∧
      cleanCell (names r.1) = true) :
    decodeCheckpoint now
      (joinWith "\n" (legacyPersonalCsvLines names lm) ++ "\n\n" ++
        joinWith "\n" (legacyPersonalCsvLines names lc) ++ "\n\n" ++
        "version\n'0.2'\n") =
      some (lm.map (syncOfLegacy now), lc.map (syncOfLegacy now), []) := by
  obtain ⟨_, _, hlast1, hnn1⟩ := joinNl_ok (legacyPersonalCsvLines names lm)
    (by simp [legacyPersonalCsvLines]) (legacyPersonalCsvLines_ok names lm hm)
  obtain ⟨_, _, hlast2, hnn2⟩ := joinNl_ok (legacyPersonalCsvLines names lc)
    (by simp [legacyPersonalCsvLines]) (legacyPersonalCsvLines_ok names lc hc)
  have hdata : (joinWith "\n" (legacyPersonalCsvLines names lm) ++ "\n\n" ++
      joinWith "\n" (legacyPersonalCsvLines names lc) ++ "\n\n" ++
      "version\n'0.2'\n").data =
      (joinWith "\n" (legacyPersonalCsvLines names lm)).data ++ '\n' :: '\n' ::
        ((joinWith "\n" (legacyPersonalCsvLines names lc)).data ++ '\n' :: '\n' ::
          ("version\n'0.2'\n" : String).data) := by
    simp only [String.data_append, show ("\n\n" : String).data = ['\n', '\n'] from rfl,
      List.append_assoc, List.cons_append, List.nil_append]
  have hsplit : pySplitNN (joinWith "\n" (legacyPersonalCsvLines names lm) ++ "\n\n" ++
      joinWith "\n" (legacyPersonalCsvLines names lc) ++ "\n\n" ++
      "version\n'0.2'\n") =
      [joinWith "\n" (legacyPersonalCsvLines names lm),
       joinWith "\n" (legacyPersonalCsvLines names lc),
       String.mk ("version\n'0.2'\n" : String).data] := by
    rw [pySplitNN, hdata, splitNN_append _ _ hnn1 hlast1, splitNN_append _ _ hnn2 hlast2,
      show splitNN ("version\n'0.2'\n" : String).data =
        [("version\n'0.2'\n" : String).data] from by decide]
    simp only [List.map_cons, List.map_nil, mk_data_eta]
  rw [decodeCheckpoint, hsplit]
  simp only [List.dropLast, List.getElem?_cons_zero, List.getElem?_cons_succ,
    List.getElem?_nil]
  rw [readLegacyBody names now lm hm, readLegacyBody names now lc hc]

/-- C8: the checkpoint codec round-trips: decoding the serialized checkpoint
blob of any well-formed per-role tables (cells free of comma and newline)
yields the same tables back, with the appended display-name column dropped;
a legacy section lacking the `update_time` column decodes with it defaulted
to the read time; and a legacy blob with fewer role sections than current
roles is accepted with the missing roles left empty. -/
theorem C8_checkpoint_roundtrip (names : Nat → String)
    (makers collectors : PDf) (dropboxes : TDf)
    (lm lc : List (Nat × String × String × Int)) (now : Nat)
    (hm : ∀ r ∈ makers, cleanCell r.item = true ∧ cleanCell r.variant = true ∧
      cleanCell (names r.user_id) = true)
    (hc : ∀ r ∈ collectors, cleanCell r.item = true ∧ cleanCell r.variant = true ∧
      cleanCell (names r.user_id) = true)
    (hd : ∀ r ∈ dropboxes, cleanCell r.item = true ∧ cleanCell r.variant = true ∧
      cleanCell (names r.user_id) = true)
    (hlm : ∀ r ∈ lm, cleanCell r.2.1 = true ∧ cleanCell r.2.2.1 = true ∧
      cleanCell (names r.1) = true)
    (hlc : ∀ r ∈ lc, cleanCell r.2.1 = true ∧ cleanCell r.2.2.1 = true ∧
      cleanCell (names r.1) = true) :
    decodeCheckpoint now (encodeCheckpoint names makers collectors dropboxes) =
      some (makers.map syncOfP, collectors.map syncOfP, dropboxes.map syncOfT) ∧
    readSyncPointCsv now (joinWith "\n" (legacyPersonalCsvLines names lm)) =
      some (lm.map (syncOfLegacy now)) ∧
    decodeCheckpoint now
      (joinWith "\n" (legacyPersonalCsvLines names lm) ++ "\n\n" ++
        joinWith "\n" (legacyPersonalCsvLines names lc) ++ "\n\n" ++
        "version\n'0.2'\n") =
      some (lm.map (syncOfLegacy now), lc.map (syncOfLegacy now), []) :=
  ⟨decode_encode_checkpoint names makers collectors dropboxes now hm hc hd,
   readLegacyBody names now lm hlm,
   decode_legacy_two_sections names lm lc now hlm hlc⟩

/-- C8 witness: a concrete maker, dropbox row and legacy row round-trip. -/
theorem C8_checkpoint_roundtrip_witness :
    decodeCheckpoint 77 (encodeCheckpoint (fun _ => "alice")
        [⟨1, "prusa", "PETG", 20, 5⟩] [] [⟨1, "visor", "prusa", 2, 4, 6⟩]) =
      some ([⟨1, "prusa", "PETG", none, 20, 5⟩], [],
        [⟨1, "visor", "prusa", some 2, 4, 6⟩]) ∧
    readSyncPointCsv 77 (joinWith "\n"
        (legacyPersonalCsvLines (fun _ => "alice") [(3, "verkstan", "PLA", 9)])) =
      some [⟨3, "verkstan", "PLA", none, 9, 77⟩] ∧
    decodeCheckpoint 77
      (joinWith "\n" (legacyPersonalCsvLines (fun _ => "alice")
          [(3, "verkstan", "PLA", 9)]) ++ "\n\n" ++
        joinWith "\n" (legacyPersonalCsvLines (fun _ => "alice") []) ++ "\n\n" ++
        "version\n'0.2'\n") =
      some ([⟨3, "verkstan", "PLA", none, 9, 77⟩], [], []) := by
  have h := C8_checkpoint_roundtrip (fun _ => "alice")
    [⟨1, "prusa", "PETG", 20, 5⟩] [] [⟨1, "visor", "prusa", 2, 4, 6⟩]
    [(3, "verkstan", "PLA", 9)] [] 77
    (by decide) (by decide) (by decide) (by decide) (by decide)
  exact ⟨h.1, h.2.1, h.2.2⟩

theorem tokenWf_ne_nil {s : String} (h : tokenWf s = true) : s.data ≠ [] := by
  simp only [tokenWf, Bool.and_eq_true, decide_eq_true_eq] at h
  exact h.1

theorem tokenWf_no_ws {s : String} (h : tokenWf s = true) :
    ∀ c ∈ s.data, c.isWhitespace = false := by
  simp only [tokenWf, Bool.and_eq_true, List.all_eq_true, decide_eq_true_eq,
    Bool.not_eq_true'] at h
  exact fun c hc => ((h.2 c hc).1).1

theorem tokenWf_no_colon {s : String} (h : tokenWf s = true) :
    ∀ c ∈ s.data, c ≠ ':' := by
  simp only [tokenWf, Bool.and_eq_true, List.all_eq_true, decide_eq_true_eq,
    Bool.not_eq_true'] at h
  exact fun c hc => ((h.2 c hc).1).2

theorem tokenWf_no_paren {s : String} (h : tokenWf s = true) :
    ∀ c ∈ s.data, c ≠ ')' := by
  simp only [tokenWf, Bool.and_eq_true, List.all_eq_true, decide_eq_true_eq,
    Bool.not_eq_true'] at h
  exact fun c hc => (h.2 c hc).2

theorem listLeads_refl_append : ∀ p rest : List Char, listLeads p (p ++ rest) = true := by
  intro p
  induction p with
  | nil => intro _; rfl
  | cons c t ih => intro rest; simp [listLeads, ih rest]

/-- Matching a pattern of shape `P ++ ' ' :: Q` against a text of shape
`W ++ ' ' :: R`, with `P` and `W` whitespace-free, succeeds exactly when the
first tokens agree and the tails match. -/
theorem listLeads_token : ∀ P W Q R : List Char,
    (∀ c ∈ P, c.isWhitespace = false) → (∀ c ∈ W, c.isWhitespace = false) →
    listLeads (P ++ ' ' :: Q) (W ++ ' ' :: R) = (decide (P = W) && listLeads Q R) := by
  intro P
  induction P with
  | nil =>
    intro W Q R _ hW
    cases W with
    | nil => simp [listLeads]
    | cons w W' =>
      have hw : w.isWhitespace = false := hW w (List.mem_cons_self w W')
      have : ¬ (' ' = w) := by
        intro he
        rw [← he] at hw
        simp at hw
      simp [listLeads, this]
  | cons p P' ih =>
    intro W Q R hP hW
    cases W with
    | nil =>
      have hp : p.isWhitespace = false := hP p (List.mem_cons_self p P')
      have : ¬ (p = ' ') := by
        intro he
        rw [he] at hp
        simp at hp
      simp [listLeads, this]
    | cons w W' =>
      have := ih W' Q R (fun c hc => hP c (List.mem_cons_of_mem p hc))
        (fun c hc => hW c (List.mem_cons_of_mem w hc))
      simp only [List.cons_append, listLeads, this]
      by_cases hpw : p = w
      · simp only [hpw, List.cons.injEq, true_and, decide_eq_true_eq]
        simp [Bool.and_assoc]
        exact this
      · simp [hpw]

theorem dropWhile_ws_pre : ∀ pre rest : List Char, (∀ c ∈ pre, c.isWhitespace = true) →
    (pre ++ rest).dropWhile (·.isWhitespace) = rest.dropWhile (·.isWhitespace) := by
  intro pre
  induction pre with
  | nil => intro _ _; rfl
  | cons c t ih =>
    intro rest h
    rw [List.cons_append, List.dropWhile_cons]
    rw [if_pos (h c (List.mem_cons_self c t))]
    exact ih rest (fun c hc => h c (List.mem_cons_of_mem _ hc))

theorem dropWhile_ws_stop : ∀ w : List Char,
    (∀ c, w.head? = some c → c.isWhitespace = false) →
    w.dropWhile (·.isWhitespace) = w := by
  intro w h
  cases w with
  | nil => rfl
  | cons c t =>
    rw [List.dropWhile_cons, if_neg]
    rw [h c rfl]
    simp

theorem takeWhile_tok : ∀ w rest : List Char, (∀ c ∈ w, c.isWhitespace = false) →
    (w ++ ' ' :: rest).takeWhile (fun c => ¬ c.isWhitespace) = w := by
  intro w
  induction w with
  | nil =>
    intro rest _
    simp [List.takeWhile_cons]
  | cons c t ih =>
    intro rest h
    rw [List.cons_append, List.takeWhile_cons, if_pos]
    · rw [ih rest (fun c hc => h c (List.mem_cons_of_mem _ hc))]
    · simp [h c (List.mem_cons_self c t)]

theorem dropWhile_tok : ∀ w rest : List Char, (∀ c ∈ w, c.isWhitespace = false) →
    (w ++ ' ' :: rest).dropWhile (fun c => ¬ c.isWhitespace) = ' ' :: rest := by
  intro w
  induction w with
  | nil =>
    intro rest _
    simp [List.dropWhile_cons]
  | cons c t ih =>
    intro rest h
    rw [List.cons_append, List.dropWhile_cons, if_pos]
    · exact ih rest (fun c hc => h c (List.mem_cons_of_mem _ hc))
    · simp [h c (List.mem_cons_self c t)]

theorem takeWhile_tok_all : ∀ w : List Char, (∀ c ∈ w, c.isWhitespace = false) →
    w.takeWhile (fun c => ¬ c.isWhitespace) = w := by
  intro w
  induction w with
  | nil => intro _; rfl
  | cons c t ih =>
    intro h
    rw [List.takeWhile_cons, if_pos]
    · rw [ih (fun c hc => h c (List.mem_cons_of_mem _ hc))]
    · simp [h c (List.mem_cons_self c t)]

theorem dropWhile_tok_all : ∀ w : List Char, (∀ c ∈ w, c.isWhitespace = false) →
    w.dropWhile (fun c => ¬ c.isWhitespace) = [] := by
  intro w
  induction w with
  | nil => intro _; rfl
  | cons c t ih =>
    intro h
    rw [List.dropWhile_cons, if_pos]
    · exact ih (fun c hc => h c (List.mem_cons_of_mem _ hc))
    · simp [h c (List.mem_cons_self c t)]

/-- One `rsplit` step takes the rightmost whitespace-delimited token. -/
theorem rsplitAux_step (n : Nat) (pre w rest : List Char)
    (hpre : ∀ c ∈ pre, c.isWhitespace = true) (hw : w ≠ [])
    (hws : ∀ c ∈ w, c.isWhitespace = false) :
    rsplitAux (n + 1) (pre ++ (w.reverse ++ ' ' :: rest)) =
      rsplitAux n (' ' :: rest) ++ [w] := by
  have hwr : ∀ c ∈ w.reverse, c.isWhitespace = false :=
    fun c hc => hws c (List.mem_reverse.mp hc)
  have hdrop : (pre ++ (w.reverse ++ ' ' :: rest)).dropWhile (·.isWhitespace) =
      w.reverse ++ ' ' :: rest := by
    rw [dropWhile_ws_pre pre _ hpre]
    apply dropWhile_ws_stop
    intro c hc
    cases hwrev : w.reverse with
    | nil => exact absurd (List.reverse_eq_nil_iff.mp hwrev) hw
    | cons d t =>
      rw [hwrev, List.cons_append, List.head?_cons] at hc
      cases hc
      exact hwr c (by rw [hwrev]; exact List.mem_cons_self _ _)
  have hne : w.reverse ++ ' ' :: rest ≠ [] := by simp
  rw [rsplitAux, hdrop, if_neg hne, takeWhile_tok _ _ hwr, dropWhile_tok _ _ hwr,
    List.reverse_reverse]

/-- The last `rsplit` piece is everything left after the whitespace run. -/
theorem rsplitAux_zero (pre t : List Char) (hpre : ∀ c ∈ pre, c.isWhitespace = true)
    (ht : t ≠ []) (hh : ∀ c, t.head? = some c → c.isWhitespace = false) :
    rsplitAux 0 (pre ++ t) = [t.reverse] := by
  have hdrop : (pre ++ t).dropWhile (·.isWhitespace) = t := by
    rw [dropWhile_ws_pre pre t hpre]
    exact dropWhile_ws_stop t hh
  rw [rsplitAux, hdrop, if_neg ht]

/-- One `split` step takes the leftmost whitespace-delimited token. -/
theorem lsplitAux_step (m : Nat) (pre w rest : List Char)
    (hpre : ∀ c ∈ pre, c.isWhitespace = true) (hw : w ≠ [])
    (hws : ∀ c ∈ w, c.isWhitespace = false) :
    lsplitAux (m + 1) (pre ++ (w ++ ' ' :: rest)) = w :: lsplitAux m (' ' :: rest) := by
  have hdrop : (pre ++ (w ++ ' ' :: rest)).dropWhile (·.isWhitespace) =
      w ++ ' ' :: rest := by
    rw [dropWhile_ws_pre pre _ hpre]
    apply dropWhile_ws_stop
    intro c hc
    cases hwc : w with
    | nil => exact absurd hwc hw
    | cons d t =>
      rw [hwc, List.cons_append, List.head?_cons] at hc
      cases hc
      exact hws c (by rw [hwc]; exact List.mem_cons_self _ _)
  have hne : w ++ ' ' :: rest ≠ [] := by simp
  rw [lsplitAux, hdrop, if_neg hne, takeWhile_tok _ _ hws, dropWhile_tok _ _ hws]

/-- A final `split` token with nothing after it. -/
theorem lsplitAux_last (m : Nat) (pre w : List Char)
    (hpre : ∀ c ∈ pre, c.isWhitespace = true) (hw : w ≠ [])
    (hws : ∀ c ∈ w, c.isWhitespace = false) :
    lsplitAux (m + 1) (pre ++ w) = [w] := by
  have hdrop : (pre ++ w).dropWhile (·.isWhitespace) = w := by
    rw [dropWhile_ws_pre pre _ hpre]
    apply dropWhile_ws_stop
    intro c hc
    cases hwc : w with
    | nil => exact absurd hwc hw
    | cons d t =>
      rw [hwc, List.head?_cons] at hc
      cases hc
      exact hws c (by rw [hwc]; exact List.mem_cons_self _ _)
  rw [lsplitAux, hdrop, if_neg hw, takeWhile_tok_all _ hws, dropWhile_tok_all _ hws]
  rw [show lsplitAux m ([] : List Char) = [] from by cases m <;> rfl]

/-- Consuming a whitespace-free run accumulates it (reversed). -/
theorem wordsAux_tok : ∀ w rest acc : List Char, (∀ c ∈ w, c.isWhitespace = false) →
    wordsAux (w ++ rest) acc = wordsAux rest (w.reverse ++ acc) := by
  intro w
  induction w with
  | nil => intro rest acc _; rfl
  | cons c t ih =>
    intro rest acc h
    rw [List.cons_append, wordsAux, if_neg]
    · rw [ih rest (c :: acc) (fun c hc => h c (List.mem_cons_of_mem _ hc))]
      simp
    · simp [h c (List.mem_cons_self c t)]

theorem natRepr_inj {a b : Nat} (h : natRepr a = natRepr b) : a = b := by
  have := congrArg natParse? h
  rw [natParse_natRepr, natParse_natRepr] at this
  exact Option.some.inj this

theorem intRepr_ne_nil (i : Int) : (intRepr i).data ≠ [] := by
  rw [intRepr]
  split
  · rw [String.data_append]
    simp
  · exact natRepr_ne_nil _

theorem intRepr_tok (i : Int) : ∀ c ∈ (intRepr i).data,
    c.isWhitespace = false ∧ c ≠ ':' ∧ c ≠ ')' := by
  intro c hc
  rcases intRepr_chars i c hc with rfl | hd
  · refine ⟨by decide, by decide, by decide⟩
  · have := digit_not_special hd
    exact ⟨this.2.2.1, this.2.2.2.1, by
      intro he
      subst he
      simp at hd⟩

theorem mentionStr_data (u : Nat) :
    (mentionStr u).data = '<' :: '@' :: ((natRepr u).data ++ ['>']) := by
  rw [mentionStr, String.data_append, String.data_append]
  rfl

theorem mentionStr_tok (u : Nat) : ∀ c ∈ (mentionStr u).data,
    c.isWhitespace = false ∧ c ≠ ':' ∧ c ≠ ')' := by
  intro c hc
  rw [mentionStr_data] at hc
  simp only [List.mem_cons, List.mem_append, List.mem_singleton, List.not_mem_nil,
    or_false] at hc
  rcases hc with rfl | rfl | hc | rfl
  · exact ⟨by decide, by decide, by decide⟩
  · exact ⟨by decide, by decide, by decide⟩
  · have := digit_not_special (natRepr_digits u c hc)
    exact ⟨this.2.2.1, this.2.2.2.1, by
      intro he
      subst he
      have := natRepr_digits u ')' hc
      simp at this⟩
  · exact ⟨by decide, by decide, by decide⟩

theorem mentionStr_ne_nil (u : Nat) : (mentionStr u).data ≠ [] := by
  rw [mentionStr_data]
  simp

theorem dropWhile_head_stop (p : Char → Bool) : ∀ w : List Char,
    (∀ c, w.head? = some c → p c = false) → w.dropWhile p = w := by
  intro w h
  cases w with
  | nil => rfl
  | cons c t =>
    rw [List.dropWhile_cons, if_neg]
    simp [h c rfl]

theorem mention_set_digit (c : Char) (h : c.isDigit = true) :
    ((("<@!>" : String).data).contains c) = false := by
  have hs := digit_not_special h
  show ((['<', '@', '!', '>'] : List Char).contains c) = false
  simp [List.contains_cons, beq_iff_eq, hs.2.2.2.2.1, hs.2.2.2.2.2.1,
    hs.2.2.2.2.2.2.1, hs.2.2.2.2.2.2.2]

/-- Stripping the mention decoration recovers the decimal user id
(line 510). -/
theorem pyStrip_mention (u : Nat) : pyStrip "<@!>" (mentionStr u) = natRepr u := by
  rw [pyStrip, mentionStr_data]
  rw [List.dropWhile_cons, if_pos (by decide), List.dropWhile_cons, if_pos (by decide)]
  cases hd : (natRepr u).data with
  | nil => exact absurd hd (natRepr_ne_nil u)
  | cons c t =>
    have hdig : ∀ x ∈ c :: t, x.isDigit = true := by
      rw [← hd]; exact natRepr_digits u
    rw [List.cons_append, List.dropWhile_cons, if_neg (by
      have hs := digit_not_special (hdig c (List.mem_cons_self c t))
      simp [hs.2.2.2.2.1, hs.2.2.2.2.2.1, hs.2.2.2.2.2.2.1, hs.2.2.2.2.2.2.2])]
    rw [show (c :: (t ++ ['>'])).reverse = '>' :: (t.reverse ++ [c]) from by simp]
    rw [List.dropWhile_cons, if_pos (by decide)]
    rw [dropWhile_head_stop _ _ (by
      intro x hx
      cases hrev : t.reverse with
      | nil =>
        rw [hrev, List.nil_append, List.head?_cons] at hx
        cases hx
        exact mention_set_digit c (hdig c (List.mem_cons_self c t))
      | cons d r =>
        rw [hrev, List.cons_append, List.head?_cons] at hx
        cases hx
        exact mention_set_digit x (hdig x (List.mem_cons_of_mem c
          (List.mem_reverse.mp (by rw [hrev]; exact List.mem_cons_self _ _)))))]
    rw [show (t.reverse ++ [c]).reverse = c :: t from by simp]
    rw [← hd]

theorem data_mk (l : List Char) : (String.mk l).data = l := rfl

/-- A whitespace flushes a nonempty accumulated word. -/
theorem wordsAux_flush (rest acc : List Char) (ha : acc ≠ []) :
    wordsAux (' ' :: rest) acc = acc.reverse :: wordsAux rest [] := by
  simp [wordsAux, ha]

/-- A trailing whitespace-free word is the last word. -/
theorem wordsAux_final (w : List Char) (hw : w ≠ [])
    (hws : ∀ c ∈ w, c.isWhitespace = false) : wordsAux w [] = [w] := by
  have h := wordsAux_tok w [] [] hws
  rw [List.append_nil] at h
  rw [h]
  simp [wordsAux, hw]

/-- `'count N'.split()` is the two words. -/
theorem pySplitWs_count (new : Int) :
    pySplitWs ("count " ++ intRepr new) = ["count", intRepr new] := by
  rw [pySplitWs]
  rw [show ("count " ++ intRepr new).data =
    ['c', 'o', 'u', 'n', 't'] ++ (' ' :: (intRepr new).data) from by
    rw [String.data_append]; rfl]
  rw [wordsAux_tok ['c', 'o', 'u', 'n', 't'] _ [] (by decide)]
  rw [wordsAux_flush _ _ (by decide)]
  rw [wordsAux_final (intRepr new).data (intRepr_ne_nil new)
    (fun c hc => (intRepr_tok new c hc).1)]
  rfl

/-- Stripping a leading space from a command head whose body neither starts
nor ends with whitespace. -/
theorem stripWs_spaceCons (w : List Char)
    (hh : ∀ c, w.head? = some c → c.isWhitespace = false)
    (hl : ∀ c, w.getLast? = some c → c.isWhitespace = false) :
    pyStripWs (String.mk (' ' :: w)) = String.mk w := by
  rw [pyStripWs, data_mk]
  rw [List.dropWhile_cons, if_pos (by decide)]
  rw [dropWhile_ws_stop w hh]
  rw [dropWhile_ws_stop w.reverse (fun c hc => hl c (by rwa [List.head?_reverse] at hc))]
  rw [List.reverse_reverse]

theorem alookup_mention (mk coll : Nat) :
    alookup (natRepr coll) [(natRepr mk, mk), (natRepr coll, coll)] = some coll := by
  by_cases he : natRepr mk = natRepr coll
  · have := natRepr_inj he
    subst this
    simp [alookup]
  · simp [alookup, he]

/-- Writing back an unchanged `last_action` leaves the walk state intact. -/
theorem BootState.setLA_getLA (st : BootState) (role : Role) :
    st.setLA role (st.getLA role) = st := by
  cases st
  cases role <;> rfl

/-- Decoding a posted drop record recovers the maker, the collector, the item
and variant, and the absolute-count command (lines 495-529). -/
theorem decode_dropEntry (mk coll : Nat) (new : Int) (item variant : String)
    (now : Nat) (hitem : tokenWf item = true) (hvar : tokenWf variant = true)
    (hnov : variant ∉ ITEMS_WITH_NO_VARIANTS) (hvp : variant ≠ "point") :
    decodeLogEntry (dropEntry mk coll new item variant now) =
      .record .dropboxes mk (some coll) item variant ("count " ++ intRepr new) := by
  have hvtok := tokenWf_no_ws hvar
  have hitok := tokenWf_no_ws hitem
  have hnumtok : ∀ c ∈ (intRepr new).data, c.isWhitespace = false :=
    fun c hc => (intRepr_tok new c hc).1
  have hm1tok : ∀ c ∈ (mentionStr mk).data, c.isWhitespace = false :=
    fun c hc => (mentionStr_tok mk c hc).1
  have hm2tok : ∀ c ∈ (mentionStr coll).data, c.isWhitespace = false :=
    fun c hc => (mentionStr_tok coll c hc).1
  have hC : (dropEntry mk coll new item variant now).content.data =
      '✅' :: ' ' :: ((mentionStr mk).data ++ ':' :: ' ' :: 'd' :: 'r' :: 'o' :: 'p' ::
        ' ' :: ((mentionStr coll).data ++ ' ' :: ((intRepr new).data ++ ' ' ::
          (item.data ++ ' ' :: variant.data)))) := by
    show ("✅ " ++ mentionStr mk ++ ": " ++ "drop" ++ " " ++
        (mentionStr coll ++ " " ++ intRepr new ++ " " ++ item ++ " " ++ variant)).data = _
    simp only [String.data_append, List.append_assoc]
    rfl
  have hrev : (dropEntry mk coll new item variant now).content.data.reverse =
      variant.data.reverse ++ ' ' :: (item.data.reverse ++ ' ' ::
        ((intRepr new).data.reverse ++ ' ' :: ((mentionStr coll).data.reverse ++ ' ' ::
          ('p' :: 'o' :: 'r' :: 'd' :: ' ' :: ':' ::
            ((mentionStr mk).data.reverse ++ [' ', '✅']))))) := by
    rw [hC]
    simp [List.reverse_append, List.append_assoc]
  have hb1 : pyStartsWith "✅ " (dropEntry mk coll new item variant now).content = true := by
    rw [pyStartsWith, show ("✅ " : String).data = ['✅', ' '] from rfl, hC]
    exact listLeads_refl_append ['✅', ' '] _
  have hend1 : pyEndsWith " (from DM chat)"
      (dropEntry mk coll new item variant now).content = false := by
    rw [pyEndsWith, hrev]
    rw [show (" (from DM chat)" : String).data.reverse =
      [')', 't', 'a', 'h', 'c'] ++ ' ' :: ['M', 'D', ' ', 'm', 'o', 'r', 'f', '(', ' ']
      from by decide]
    rw [listLeads_token _ _ _ _ (by decide)
      (fun c hc => hvtok c (List.mem_reverse.mp hc))]
    have hne : ¬ ([')', 't', 'a', 'h', 'c'] = variant.data.reverse) := by
      intro he
      have hmem : ')' ∈ variant.data.reverse := by
        rw [← he]; exact List.mem_cons_self _ _
      exact (tokenWf_no_paren hvar ')' (List.mem_reverse.mp hmem)) rfl
    simp [hne]
  have hend2 : pyEndsWith "sync point"
      (dropEntry mk coll new item variant now).content = false := by
    rw [pyEndsWith, hrev]
    rw [show ("sync point" : String).data.reverse =
      ['t', 'n', 'i', 'o', 'p'] ++ ' ' :: ['c', 'n', 'y', 's'] from by decide]
    rw [listLeads_token _ _ _ _ (by decide)
      (fun c hc => hvtok c (List.mem_reverse.mp hc))]
    have hne : ¬ (['t', 'n', 'i', 'o', 'p'] = variant.data.reverse) := by
      intro he
      apply hvp
      have h2 := congrArg List.reverse he
      rw [List.reverse_reverse] at h2
      calc variant = String.mk variant.data := rfl
        _ = "point" := by rw [← h2]; rfl
    simp [hne]
  have hsplit2 : pyRsplitWs (dropEntry mk coll new item variant now).content 2 =
      [String.mk ('✅' :: ' ' :: ((mentionStr mk).data ++ ':' :: ' ' :: 'd' :: 'r' ::
          'o' :: 'p' :: ' ' :: ((mentionStr coll).data ++ ' ' :: (intRepr new).data))),
       String.mk item.data, String.mk variant.data] := by
    rw [pyRsplitWs, hrev]
    have e1 := rsplitAux_step 1 [] variant.data
      (item.data.reverse ++ ' ' :: ((intRepr new).data.reverse ++ ' ' ::
        ((mentionStr coll).data.reverse ++ ' ' :: ('p' :: 'o' :: 'r' :: 'd' :: ' ' ::
          ':' :: ((mentionStr mk).data.reverse ++ [' ', '✅'])))))
      (by intro c hc; cases hc) (tokenWf_ne_nil hvar) hvtok
    rw [List.nil_append] at e1
    rw [e1]
    have e2 := rsplitAux_step 0 [' '] item.data
      ((intRepr new).data.reverse ++ ' ' :: ((mentionStr coll).data.reverse ++ ' ' ::
        ('p' :: 'o' :: 'r' :: 'd' :: ' ' :: ':' ::
          ((mentionStr mk).data.reverse ++ [' ', '✅']))))
      (by decide) (tokenWf_ne_nil hitem) hitok
    rw [List.singleton_append] at e2
    rw [e2]
    have e3 := rsplitAux_zero [' ']
      ((intRepr new).data.reverse ++ ' ' :: ((mentionStr coll).data.reverse ++ ' ' ::
        ('p' :: 'o' :: 'r' :: 'd' :: ' ' :: ':' ::
          ((mentionStr mk).data.reverse ++ [' ', '✅']))))
      (by decide) (by simp)
      (by
        intro c hc
        cases hnum : (intRepr new).data.reverse with
        | nil => exact absurd (List.reverse_eq_nil_iff.mp hnum) (intRepr_ne_nil new)
        | cons d r =>
          rw [hnum, List.cons_append, List.head?_cons] at hc
          cases hc
          exact hnumtok c (List.mem_reverse.mp
            (by rw [hnum]; exact List.mem_cons_self _ _)))
    rw [List.singleton_append] at e3
    rw [e3]
    rw [show ((intRepr new).data.reverse ++ ' ' :: ((mentionStr coll).data.reverse ++
        ' ' :: ('p' :: 'o' :: 'r' :: 'd' :: ' ' :: ':' ::
          ((mentionStr mk).data.reverse ++ [' ', '✅'])))).reverse =
      '✅' :: ' ' :: ((mentionStr mk).data ++ ':' :: ' ' :: 'd' :: 'r' :: 'o' :: 'p' ::
        ' ' :: ((mentionStr coll).data ++ ' ' :: (intRepr new).data) : List Char) from by
      simp [List.reverse_append, List.append_assoc]]
    rfl
  have hcolon : pySplitChar ':'
      (String.mk ('✅' :: ' ' :: ((mentionStr mk).data ++ ':' :: ' ' :: 'd' :: 'r' ::
        'o' :: 'p' :: ' ' :: ((mentionStr coll).data ++ ' ' :: (intRepr new).data)))) =
      [String.mk ('✅' :: ' ' :: (mentionStr mk).data),
       String.mk (' ' :: 'd' :: 'r' :: 'o' :: 'p' :: ' ' ::
         ((mentionStr coll).data ++ ' ' :: (intRepr new).data))] := by
    rw [pySplitChar, data_mk]
    rw [show ('✅' :: ' ' :: ((mentionStr mk).data ++ ':' :: ' ' :: 'd' :: 'r' :: 'o' ::
        'p' :: ' ' :: ((mentionStr coll).data ++ ' ' :: (intRepr new).data))) =
      ('✅' :: ' ' :: (mentionStr mk).data) ++ ':' ::
        (' ' :: 'd' :: 'r' :: 'o' :: 'p' :: ' ' ::
          ((mentionStr coll).data ++ ' ' :: (intRepr new).data)) from by simp]
    rw [splitOnChar_append ':' _ _ (by
      intro hc
      simp only [List.mem_cons] at hc
      rcases hc with hc | hc | hc
      · exact absurd hc (by decide)
      · exact absurd hc (by decide)
      · exact (mentionStr_tok mk ':' hc).2.1 rfl)]
    rw [splitOnChar_no_sep ':' _ (by
      intro hc
      simp only [List.mem_cons, List.mem_append] at hc
      rcases hc with hc | hc | hc | hc | hc | hc | hc | hc | hc
      · exact absurd hc (by decide)
      · exact absurd hc (by decide)
      · exact absurd hc (by decide)
      · exact absurd hc (by decide)
      · exact absurd hc (by decide)
      · exact absurd hc (by decide)
      · exact (mentionStr_tok coll ':' hc).2.1 rfl
      · exact absurd hc (by decide)
      · exact (intRepr_tok new ':' hc).2.1 rfl)]
    rfl
  have hrsplit1 : pyRsplitWs (String.mk ('✅' :: ' ' :: (mentionStr mk).data)) 1 =
      [String.mk ['✅'], String.mk (mentionStr mk).data] := by
    rw [pyRsplitWs, data_mk]
    rw [show ('✅' :: ' ' :: (mentionStr mk).data).reverse =
      (mentionStr mk).data.reverse ++ ' ' :: ['✅'] from by simp]
    have e1 := rsplitAux_step 0 [] (mentionStr mk).data ['✅']
      (by intro c hc; cases hc) (mentionStr_ne_nil mk) hm1tok
    rw [List.nil_append] at e1
    rw [e1]
    have e2 := rsplitAux_zero [' '] ['✅'] (by decide) (by decide)
      (by intro c hc; rw [List.head?_cons] at hc; cases hc; decide)
    rw [List.singleton_append] at e2
    rw [e2]
    rfl
  have hCH : pyStripWs (String.mk (' ' :: 'd' :: 'r' :: 'o' :: 'p' :: ' ' ::
      ((mentionStr coll).data ++ ' ' :: (intRepr new).data))) =
      String.mk ('d' :: 'r' :: 'o' :: 'p' :: ' ' ::
        ((mentionStr coll).data ++ ' ' :: (intRepr new).data)) := by
    apply stripWs_spaceCons
    · intro c hc
      rw [List.head?_cons] at hc
      cases hc
      decide
    · intro c hc
      rw [show ('d' :: 'r' :: 'o' :: 'p' :: ' ' ::
          ((mentionStr coll).data ++ ' ' :: (intRepr new).data)) =
        ('d' :: 'r' :: 'o' :: 'p' :: ' ' :: ((mentionStr coll).data ++ [' '])) ++
          (intRepr new).data from by simp] at hc
      rw [List.getLast?_append_of_ne_nil _ (intRepr_ne_nil new)] at hc
      exact hnumtok c (mem_of_getLast_eq _ c hc)
  have hncol : pyStartsWith "collect" (String.mk ('d' :: 'r' :: 'o' :: 'p' :: ' ' ::
      ((mentionStr coll).data ++ ' ' :: (intRepr new).data))) = false := by
    rw [pyStartsWith]
    rfl
  have hdrop' : pyStartsWith "drop" (String.mk ('d' :: 'r' :: 'o' :: 'p' :: ' ' ::
      ((mentionStr coll).data ++ ' ' :: (intRepr new).data))) = true := by
    rw [pyStartsWith]
    rfl
  have hsw3 : pySplitWsN (String.mk ('d' :: 'r' :: 'o' :: 'p' :: ' ' ::
      ((mentionStr coll).data ++ ' ' :: (intRepr new).data))) 3 =
      [String.mk ['d', 'r', 'o', 'p'], String.mk (mentionStr coll).data,
       String.mk (intRepr new).data] := by
    rw [pySplitWsN, data_mk]
    rw [show ('d' :: 'r' :: 'o' :: 'p' :: ' ' ::
        ((mentionStr coll).data ++ ' ' :: (intRepr new).data)) =
      ['d', 'r', 'o', 'p'] ++ ' ' ::
        ((mentionStr coll).data ++ ' ' :: (intRepr new).data) from rfl]
    have e1 := lsplitAux_step 2 [] ['d', 'r', 'o', 'p']
      ((mentionStr coll).data ++ ' ' :: (intRepr new).data)
      (by intro c hc; cases hc) (by decide) (by decide)
    rw [List.nil_append] at e1
    rw [e1]
    have e2 := lsplitAux_step 1 [' '] (mentionStr coll).data (intRepr new).data
      (by decide) (mentionStr_ne_nil coll) hm2tok
    rw [List.singleton_append] at e2
    rw [e2]
    have e3 := lsplitAux_last 0 [' '] (intRepr new).data (by decide)
      (intRepr_ne_nil new) hnumtok
    rw [List.singleton_append] at e3
    rw [e3]
    rfl
  have halk1 : alookup (natRepr mk) [(natRepr mk, mk), (natRepr coll, coll)] =
      some mk := by
    simp [alookup]
  rw [decodeLogEntry]
  simp only [show (dropEntry mk coll new item variant now).fromBot = true from rfl,
    show (dropEntry mk coll new item variant now).mentions = [mk, coll] from rfl,
    hb1, hend1, hend2, hsplit2, hcolon, hrsplit1, hCH, hncol, hdrop', hsw3,
    mk_data_eta, pyStrip_mention, halk1, alookup_mention, List.map_cons, List.map_nil,
    hnov, not_true, not_false_iff, Bool.not_true, ite_true, ite_false, if_true, if_false]
  simp [hend2, hsplit2, hcolon, hrsplit1, hCH, hncol, hdrop', hsw3, mk_data_eta,
    pyStrip_mention, halk1, alookup_mention, hnov]

/-- Folding a decoded drop record for a fresh key writes exactly the decoded
absolute count at the 4-tuple key (lines 414-439). -/
theorem process_drop_record (mk coll : Nat) (la : LastAction) (item variant : String)
    (new : Int) (t : Nat)
    (hfresh : alookup (TransKey.t mk coll item variant) la = none)
    (hnr : ¬ (item = "remove" ∧ variant = "all")) :
    _process_one_trans_record mk (some coll) la item variant
      ("count " ++ intRepr new) t =
      some (la ++ [(TransKey.t mk coll item variant, ⟨some new, t⟩)]) := by
  have h1 : pyStartsWith "remove" ("count " ++ intRepr new) = false := by
    rw [pyStartsWith, String.data_append]
    rfl
  have h2 : pyStartsWith "count" ("count " ++ intRepr new) = true := by
    rw [pyStartsWith, String.data_append]
    rfl
  rw [_process_one_trans_record.eq_def]
  simp only [hfresh, Option.isSome_none, Bool.false_eq_true, if_false,
    if_neg hnr, h1, h2, if_true, pySplitWs_count]
  simp [intParse_intRepr]

/-- Rebuilding from a single folded drop action stores the absolute count, and
deletes rather than stores a zero count. -/
theorem rebuild_drop_zero (mk coll : Nat) (item variant : String) (new : Int) (t : Nat) :
    rebuild_inventory_transaction [(TransKey.t mk coll item variant, ⟨some new, t⟩)] [] =
      (if new = 0 then [] else [⟨mk, item, variant, coll, new, t⟩]) := by
  by_cases hz : new = 0 <;> simp [rebuild_inventory_transaction, hz]

/-- Every committed drop carries the absolute dropbox count — the delta plus
the stored count for the (maker, item, variant, collector) key — posts
exactly that count in the drop record, and upserts it into the dropbox table
(deleting the key instead when the new count is zero). -/
theorem dropWithNum_commit_abs (mdf cdf : PDf) (ddf : TDf) (mk coll : Nat) (num : Int)
    (ev0 : List Event) (i? v? : Option String) (now : Nat) :
    ∀ new i v, (dropWithNum mdf cdf ddf mk coll num ev0 i? v? true true now).1 =
        .dropCommitted new i v →
      new = num + dropboxCurrent ddf mk coll i v ∧
      (∃ pre, (dropWithNum mdf cdf ddf mk coll num ev0 i? v? true true now).2.2.2 =
        pre ++ [.post (dropEntry mk coll new i v now), .mutate .dropboxes]) ∧
      (dropWithNum mdf cdf ddf mk coll num ev0 i? v? true true now).2.2.1 =
        (if new ≠ 0 then tUpsert ddf mk i v coll new now
         else ddf.filter (fun r => decide (¬ (r.user_id = mk ∧ r.item = i ∧
           r.variant = v ∧ r.second_user_id = coll)))) := by
  intro new i v h
  by_cases hz : num = 0
  · simp [dropWithNum, hz] at h
  · cases hc1 : countCore mdf mk (some (-num)) i? v? true .makers with
    | proceed t1 cI cV cc =>
      have hc1r := countCore_resolved_args mdf mk (-num) i? v? true .makers t1 cI cV cc hc1
      by_cases hnn : (0:Int) ≤ num
      · cases hc2 : countCore cdf coll (some num) (some cI) (some cV) true .collectors with
        | proceed t2 i2 v2 c2 =>
          by_cases hneg : num + dropboxCurrent ddf mk coll cI cV < 0
          · simp [dropWithNum, hz, _count, hc1, _collect_from, hc1r, hc2, hnn,
              if_pos hneg] at h
          · simp [dropWithNum, hz, _count, hc1, _collect_from, hc1r, hc2, hnn,
              if_neg hneg] at h
            obtain ⟨h1, h2, h3⟩ := h
            subst h1 h2 h3
            refine ⟨rfl, ⟨ev0 ++ [.validate .makers mk (-num)] ++
              [.validate .makers mk (-num), .validate .collectors coll num] ++
              [.post (transMsg mk (countCmdText .makers)
                (intRepr t1 ++ " " ++ cI ++ " " ++ cV) now none), .mutate .makers], ?_⟩,
              ?_⟩
            · simp [dropWithNum, hz, _count, hc1, _collect_from, hc1r, hc2, hnn,
                if_neg hneg]
            · by_cases hz2 : num + dropboxCurrent ddf mk coll cI cV = 0 <;>
                simp [dropWithNum, hz, _count, hc1, _collect_from, hc1r, hc2, hnn,
                  if_neg hneg, hz2]
        | showInventory =>
          simp [dropWithNum, hz, _count, hc1, _collect_from, hc1r, hc2, hnn] at h
        | helpNoRecords =>
          simp [dropWithNum, hz, _count, hc1, _collect_from, hc1r, hc2, hnn] at h
        | reject r =>
          simp [dropWithNum, hz, _count, hc1, _collect_from, hc1r, hc2, hnn] at h
      · by_cases hneg : num + dropboxCurrent ddf mk coll cI cV < 0
        · simp [dropWithNum, hz, _count, hc1, hnn, if_pos hneg] at h
        · simp [dropWithNum, hz, _count, hc1, hc1r, hnn, if_neg hneg] at h
          obtain ⟨h1, h2, h3⟩ := h
          subst h1 h2 h3
          refine ⟨rfl, ⟨ev0 ++ [.validate .makers mk (-num)] ++
            [.post (transMsg mk (countCmdText .makers)
              (intRepr t1 ++ " " ++ cI ++ " " ++ cV) now none), .mutate .makers], ?_⟩,
            ?_⟩
          · simp [dropWithNum, hz, _count, hc1, hc1r, hnn, if_neg hneg]
          · by_cases hz2 : num + dropboxCurrent ddf mk coll cI cV = 0 <;>
              simp [dropWithNum, hz, _count, hc1, hc1r, hnn, if_neg hneg, hz2]
    | showInventory => simp [dropWithNum, hz, _count, hc1] at h
    | helpNoRecords => simp [dropWithNum, hz, _count, hc1] at h
    | reject r => simp [dropWithNum, hz, _count, hc1] at h

/-- C10: every successful drop posts a log record carrying the resulting
absolute dropbox count — the previous stored count for the
(maker, item, variant, collector) key plus the delta, not the delta itself —
and deletes the key from the table instead of storing a zero; replay decodes
that record as a `count` command setting exactly that absolute count, folding
it writes the absolute count at the 4-tuple key, and rebuilding from the
folded action reproduces the dropbox row exactly, with a zero count deleted
rather than stored. -/
theorem C10_drop_absolute_count (mdf cdf : PDf) (ddf : TDf) (mk coll : Nat)
    (num : Int) (ev0 : List Event) (i? v? : Option String) (now : Nat)
    (la : LastAction) (t : Nat) (item variant : String) (new : Int)
    (hitem : tokenWf item = true) (hvar : tokenWf variant = true)
    (hnov : variant ∉ ITEMS_WITH_NO_VARIANTS) (hvp : variant ≠ "point")
    (hfresh : alookup (TransKey.t mk coll item variant) la = none)
    (hnr : ¬ (item = "remove" ∧ variant = "all")) :
    (∀ new' i v, (dropWithNum mdf cdf ddf mk coll num ev0 i? v? true true now).1 =
        .dropCommitted new' i v →
      new' = num + dropboxCurrent ddf mk coll i v ∧
      (∃ pre, (dropWithNum mdf cdf ddf mk coll num ev0 i? v? true true now).2.2.2 =
        pre ++ [.post (dropEntry mk coll new' i v now), .mutate .dropboxes]) ∧
      (dropWithNum mdf cdf ddf mk coll num ev0 i? v? true true now).2.2.1 =
        (if new' ≠ 0 then tUpsert ddf mk i v coll new' now
         else ddf.filter (fun r => decide (¬ (r.user_id = mk ∧ r.item = i ∧
           r.variant = v ∧ r.second_user_id = coll))))) ∧
    decodeLogEntry (dropEntry mk coll new item variant now) =
      .record .dropboxes mk (some coll) item variant ("count " ++ intRepr new) ∧
    _process_one_trans_record mk (some coll) la item variant
        ("count " ++ intRepr new) t =
      some (la ++ [(TransKey.t mk coll item variant, ⟨some new, t⟩)]) ∧
    rebuild_inventory_transaction [(TransKey.t mk coll item variant, ⟨some new, t⟩)] [] =
      (if new = 0 then [] else [⟨mk, item, variant, coll, new, t⟩]) :=
  ⟨dropWithNum_commit_abs mdf cdf ddf mk coll num ev0 i? v? now,
   decode_dropEntry mk coll new item variant now hitem hvar hnov hvp,
   process_drop_record mk coll la item variant new t hfresh hnr,
   rebuild_drop_zero mk coll item variant new t⟩

/-- C10 witness: a concrete committed drop of 4 onto a stored count of 3. -/
theorem C10_drop_absolute_count_witness :
    (∀ new' i v, (dropWithNum [⟨1, "prusa", "PETG", 5, 0⟩] []
        [⟨1, "prusa", "PETG", 2, 3, 0⟩] 1 2 4 [] none none true true 9).1 =
        .dropCommitted new' i v →
      new' = 4 + dropboxCurrent [⟨1, "prusa", "PETG", 2, 3, 0⟩] 1 2 i v ∧
      (∃ pre, (dropWithNum [⟨1, "prusa", "PETG", 5, 0⟩] []
          [⟨1, "prusa", "PETG", 2, 3, 0⟩] 1 2 4 [] none none true true 9).2.2.2 =
        pre ++ [.post (dropEntry 1 2 new' i v 9), .mutate .dropboxes]) ∧
      (dropWithNum [⟨1, "prusa", "PETG", 5, 0⟩] []
          [⟨1, "prusa", "PETG", 2, 3, 0⟩] 1 2 4 [] none none true true 9).2.2.1 =
        (if new' ≠ 0 then tUpsert [⟨1, "prusa", "PETG", 2, 3, 0⟩] 1 i v 2 new' 9
         else ([⟨1, "prusa", "PETG", 2, 3, 0⟩] : TDf).filter
           (fun r => decide (¬ (r.user_id = 1 ∧ r.item = i ∧
             r.variant = v ∧ r.second_user_id = 2))))) ∧
    decodeLogEntry (dropEntry 1 2 7 "prusa" "PETG" 9) =
      .record .dropboxes 1 (some 2) "prusa" "PETG" ("count " ++ intRepr 7) ∧
    _process_one_trans_record 1 (some 2) [] "prusa" "PETG"
        ("count " ++ intRepr 7) 9 =
      some ([(TransKey.t 1 2 "prusa" "PETG", ⟨some 7, 9⟩)]) ∧
    rebuild_inventory_transaction [(TransKey.t 1 2 "prusa" "PETG", ⟨some 7, 9⟩)] [] =
      (if (7 : Int) = 0 then [] else [⟨1, "prusa", "PETG", 2, 7, 9⟩]) := by
  have h := C10_drop_absolute_count [⟨1, "prusa", "PETG", 5, 0⟩] []
    [⟨1, "prusa", "PETG", 2, 3, 0⟩] 1 2 4 [] none none 9 [] 9 "prusa" "PETG" 7
    (by decide) (by decide) (by decide) (by decide) (by decide) (by decide)
  exact h

/-- Counterexample to **C9** as stated: a malformed bot-authored entry with a
mention but too few tokens (`head.split(':')` unpacking raises) aborts the
whole replay walk instead of being skipped. -/
theorem C9_counterexample :
    decodeLogEntry
      { fromBot := true, content := "✅ <@5> count", mentions := [5],
        attachments := [], createdAt := 3 } = .crash ∧
    replayWalk
      [{ fromBot := true, content := "✅ <@5> count", mentions := [5],
         attachments := [], createdAt := 3 },
       { fromBot := true, content := "✅ <@5>: count 7 prusa PETG", mentions := [5],
         attachments := [], createdAt := 2 }] 0 initBootState = none := by
  exact ⟨by decide, by decide⟩

/-- **C9** (amended): the explicitly guarded malformed entries are skipped
with a diagnostic and the walk continues — entries not authored by the bot
or without the confirmation marker are ignored; a sync-point entry with a
missing or misnamed attachment is skipped; an Action entry whose verb is
not a recognized count/remove command is logged as not understood and
leaves the folded state unchanged.  (Entries whose token structure is
malformed — too few tokens, unresolvable mentions, non-numeric counts —
raise and abort the walk, as the counterexample shows.) -/
theorem C9_guarded_skips (m : Msg) (msgs : List Msg) (now : Nat) (st : BootState) :
    ((¬ m.fromBot = true ∨ pyStartsWith "✅ " m.content = false) →
      decodeLogEntry m = .ignore ∧
      replayWalk (m :: msgs) now st = replayWalk msgs now st) ∧
    (decodeLogEntry m = .syncSkip →
      replayWalk (m :: msgs) now st = replayWalk msgs now st) ∧
    (m.fromBot = true → pyStartsWith "✅ " m.content = true →
      pyEndsWith "sync point"
        (if pyEndsWith " (from DM chat)" m.content then pyDropRight m.content 15
         else m.content) = true →
      (m.attachments = [] ∨
        ∃ fn fc rest, m.attachments = (fn, fc) :: rest ∧ fn ≠ PRODUCT_CSV_FILE_NAME) →
      decodeLogEntry m = .syncSkip) ∧
    (∀ role mem coll i v cmd,
      decodeLogEntry m = .record role mem coll i v cmd →
      ¬(i = "remove" ∧ v = "all") →
      pyStartsWith "remove" cmd = false → pyStartsWith "count" cmd = false →
      replayWalk (m :: msgs) now st = replayWalk msgs now st) := by
  refine ⟨?_, ?_, ?_, ?_⟩
  · intro h
    have hdec : decodeLogEntry m = .ignore := by
      rw [decodeLogEntry.eq_def]
      by_cases hb : m.fromBot = true
      · rcases h with h | h
        · exact absurd hb h
        · rw [if_neg (by simp [hb])]
          simp [h]
      · rw [if_pos (by simpa using hb)]
    exact ⟨hdec, by rw [replayWalk, hdec]⟩
  · intro h
    rw [replayWalk, h]
  · intro hbot hmark hsync hatt
    rw [decodeLogEntry.eq_def]
    rw [if_neg (by simp [hbot]), if_neg (by simp [hmark])]
    simp only []
    rw [if_pos hsync]
    rcases hatt with hatt | ⟨fn, fc, rest, hatt, hfn⟩
    · rw [hatt]
    · rw [hatt]
      simp only []
      rw [if_pos hfn]
  · intro role mem coll i v cmd hdec hsent hrem hcnt
    have hproc : _process_one_trans_record mem coll (st.getLA role) i v cmd
        m.createdAt = some (st.getLA role) := by
      cases coll with
      | none =>
        rw [_process_one_trans_record.eq_def]
        simp only []
        by_cases hk : (alookup (TransKey.p mem i v) (st.getLA role)).isSome
        · rw [if_pos hk]
        · rw [if_neg hk, if_neg hsent, if_neg (by simp [hrem]),
            if_neg (by simp [hcnt])]
      | some c =>
        rw [_process_one_trans_record.eq_def]
        simp only []
        by_cases hk : (alookup (TransKey.t mem c i v) (st.getLA role)).isSome
        · rw [if_pos hk]
        · rw [if_neg hk, if_neg hsent, if_neg (by simp [hrem]),
            if_neg (by simp [hcnt])]
    rw [replayWalk, hdec]
    simp only []
    rw [hproc]
    simp only []
    rw [BootState.setLA_getLA]

/-- Witness for C9 at concrete inputs: a non-bot entry is ignored, a
sync point without its attachment is skipped, and in both cases the walk
continues to the rest of the stream. -/
theorem C9_guarded_skips_witness :
    (decodeLogEntry
        { fromBot := false, content := "✅ <@5>: count 7 prusa PETG", mentions := [5],
          attachments := [], createdAt := 3 } = .ignore ∧
      replayWalk
        [{ fromBot := false, content := "✅ <@5>: count 7 prusa PETG", mentions := [5],
           attachments := [], createdAt := 3 }] 0 initBootState =
        replayWalk [] 0 initBootState) ∧
    decodeLogEntry
      { fromBot := true, content := "✅ Bot restarted: sync point", mentions := [],
        attachments := [("wrong.csv", "x")], createdAt := 3 } = .syncSkip := by
  constructor
  · exact (C9_guarded_skips
      { fromBot := false, content := "✅ <@5>: count 7 prusa PETG", mentions := [5],
        attachments := [], createdAt := 3 } [] 0 initBootState).1 (by left; decide)
  · exact (C9_guarded_skips
      { fromBot := true, content := "✅ Bot restarted: sync point", mentions := [],
        attachments := [("wrong.csv", "x")], createdAt := 3 } [] 0 initBootState).2.2.1
      (by decide) (by decide) (by decide)
      (by right; exact ⟨"wrong.csv", "x", [], rfl, by decide⟩)

end CountBot

